import Mathlib

/-!
# Digit image predictor front end: the MNIST preparation pipeline

A shallow embedding of the image preparation functions of `public/index.js`
(`getBoundingBox`, `getCenterOfMass`, `applyGaussianBlur`, `getImageData`) and of the
prediction request `sendToServer`, followed by theorems about them.

Conventions of the embedding.

* A pixel buffer (`ImageData.data`, a `Uint8ClampedArray`) is a `List Nat` holding four
  channel values per pixel, row after row.
* A JavaScript number is the rational it denotes. A read outside the array gives `undefined`,
  and arithmetic on it gives `NaN`; both are `none` in the embedding.
* `roundToDouble` is the rounding that IEEE 754 double arithmetic applies to the exact result
  of an operation. `getCenterOfMass`, whose masses, sums and quotients are not exact in
  doubles, applies it after every operation. The rescaling arithmetic of `getImageData` and
  the normalisation are kept exact.
* A `for` loop is a left fold over the list of values its loop variable takes.
* The browser canvas operations used by `getImageData` are not part of the repository; they
  are fields of the structure `Canvas`.
-/

namespace DigitImagePredictor

/-! ## Data model -/

/-- The object `{ minX, minY, maxX, maxY }` returned by `getBoundingBox` and taken by
`getCenterOfMass`. -/
structure BBox where
  minX : Int
  minY : Int
  maxX : Int
  maxY : Int
  deriving DecidableEq, Repr

/-- The object `{ x, y }` returned by `getCenterOfMass`. -/
structure Point where
  x : ℚ
  y : ℚ
  deriving DecidableEq, Repr

/-- The expression `imageData[i]`: the channel value stored at index `i`, and `none`
(`undefined`) when `i` is not an index of the array. -/
def readAt (imageData : List Nat) (i : Int) : Option Nat :=
  if i < 0 then none else imageData[i.toNat]?

/-- The expression `(imageData[i] + imageData[i + 1] + imageData[i + 2]) / 3`, the mean of
the red, green and blue channels of the pixel that starts at index `i`; `none` is `NaN`. -/
def avgAt (imageData : List Nat) (i : Int) : Option ℚ :=
  match readAt imageData i, readAt imageData (i + 1), readAt imageData (i + 2) with
  | some r, some g, some b => some (((r : ℚ) + (g : ℚ) + (b : ℚ)) / 3)
  | _, _, _ => none

/-- The index `(y * width + x) * 4` of the first channel of pixel `(x, y)`. -/
def pixelIndex (width x y : Int) : Int :=
  (y * width + x) * 4

/-- The mean of the red, green and blue channels of pixel `(x, y)` of a buffer that is
`width` pixels wide. -/
def pixelMean (imageData : List Nat) (width x y : Nat) : Option ℚ :=
  avgAt imageData (pixelIndex width x y)

/-- An ink pixel: its mean is below 250, the test of `getBoundingBox`. -/
def isInk (imageData : List Nat) (width x y : Nat) : Bool :=
  match pixelMean imageData width x y with
  | some avg => decide (avg < 250)
  | none => false

/-- A background pixel: its mean is at least 250. -/
def isBackground (imageData : List Nat) (width x y : Nat) : Bool :=
  match pixelMean imageData width x y with
  | some avg => decide (250 ≤ avg)
  | none => false

/-! ## getBoundingBox (lines 104-121) -/

/-- One iteration of the inner loop of `getBoundingBox` at pixel `(x, y)`: when the mean is
below 250 the four bounds are widened to include the pixel. A `NaN` mean fails the test. -/
def boundingBoxStep (imageData : List Nat) (width : Nat) (box : BBox) (x y : Nat) : BBox :=
  match avgAt imageData (pixelIndex width x y) with
  | some avg =>
    if avg < 250 then
      { minX := min box.minX x, minY := min box.minY y,
        maxX := max box.maxX x, maxY := max box.maxY y }
    else box
  | none => box

/-- The function `getBoundingBox(imageData, width, height)`. -/
def getBoundingBox (imageData : List Nat) (width height : Nat) : BBox :=
  (List.range height).foldl
    (fun box y => (List.range width).foldl (fun box x => boundingBoxStep imageData width box x y) box)
    { minX := width, minY := height, maxX := 0, maxY := 0 }

/-- The 100 by 100 opaque white buffer with a black square covering the pixels whose two
coordinates are in 45..54. -/
def squareBuffer : List Nat :=
  (List.range (4 * 100 * 100)).map (fun j =>
    if j % 4 = 3 then 255
    else if 45 ≤ (j / 4) % 100 ∧ (j / 4) % 100 ≤ 54 ∧ 45 ≤ (j / 4) / 100 ∧ (j / 4) / 100 ≤ 54
    then 0 else 255)

/-- The 2 by 2 opaque white buffer: a drawing surface nobody drew on. -/
def blankBuffer : List Nat :=
  List.replicate 16 255

/-- The opaque white buffer of `w` by `h` pixels: a drawing surface nobody drew on, as
`setupCanvasContext` leaves it. -/
def blankSurface (w h : Nat) : List Nat :=
  List.replicate (4 * w * h) 255

/-- A 2 by 2 buffer of four different pale pixels, none of them ink. -/
def paleBuffer : List Nat :=
  [250, 250, 250, 255, 255, 255, 255, 0, 251, 252, 253, 255, 255, 250, 250, 255]

/-- A 4 by 1 buffer: three white pixels and the pixel `(193, 0, 0)` at the right end. -/
def edgeBuffer : List Nat :=
  [255, 255, 255, 255, 255, 255, 255, 255, 255, 255, 255, 255, 193, 0, 0, 255]

/-- A 3 by 1 buffer that is its own mirror image: `(2, 0, 0)`, `(255, 255, 246)`,
`(2, 0, 0)`. -/
def mirrorBuffer : List Nat :=
  [2, 0, 0, 255, 255, 255, 246, 255, 2, 0, 0, 255]

/-! ## getCenterOfMass (lines 123-141) -/

/-- The values taken by the variable of `for (let v = lo; v <= hi; v++)`. -/
def forRange (lo hi : Int) : List Int :=
  (List.range (hi + 1 - lo).toNat).map (fun (k : Nat) => lo + (k : Int))

/-- The integer nearest to `t`, a tie going to the even one. -/
def roundHalfEven (t : ℚ) : Int :=
  if t - (⌊t⌋ : ℚ) < 1 / 2 then ⌊t⌋
  else if 1 / 2 < t - (⌊t⌋ : ℚ) then ⌊t⌋ + 1
  else if ⌊t⌋ % 2 = 0 then ⌊t⌋ else ⌊t⌋ + 1

/-- The double nearest to `q`, a tie going to the one with an even significand: the result of
an IEEE 754 operation whose exact result is `q`. With `e` the exponent of `q`
(`2 ^ e <= |q| < 2 ^ (e + 1)`), `q` is rounded to a multiple of `2 ^ (e - 52)`, which leaves
53 significant bits. Overflow and gradual underflow are left out: the values of
`getCenterOfMass` stay far from both for coordinates a double holds exactly. -/
def roundToDouble (q : ℚ) : ℚ :=
  if q = 0 then 0
  else (roundHalfEven (q / (2 : ℚ) ^ (Int.log 2 |q| - 52)) : ℚ) *
    (2 : ℚ) ^ (Int.log 2 |q| - 52)

/-- One iteration of the inner loop of `getCenterOfMass` at pixel `(x, y)`. The state is
`(totalMass, comX, comY)`; it is `none` once a `NaN` has been added, which turns the three
of them into `NaN`. Every operation is rounded to a double: the division by 3 (the sum of
three channel values is exact), `255 - avg`, the two products and the three additions. -/
def centerOfMassStep (imageData : List Nat) (width : Int) (acc : Option (ℚ × ℚ × ℚ))
    (x y : Int) : Option (ℚ × ℚ × ℚ) :=
  match acc, avgAt imageData (pixelIndex width x y) with
  | some (totalMass, comX, comY), some avg =>
    let mass := roundToDouble (255 - roundToDouble avg)
    some (roundToDouble (totalMass + mass),
      roundToDouble (comX + roundToDouble ((x : ℚ) * mass)),
      roundToDouble (comY + roundToDouble ((y : ℚ) * mass)))
  | _, _ => none

/-- The three sums accumulated by the loops of `getCenterOfMass`. -/
def centerOfMassSums (imageData : List Nat) (width : Int) (bbox : BBox) : Option (ℚ × ℚ × ℚ) :=
  (forRange bbox.minY bbox.maxY).foldl
    (fun acc y => (forRange bbox.minX bbox.maxX).foldl
      (fun acc x => centerOfMassStep imageData width acc x y) acc)
    (some (0, 0, 0))

/-- The function `getCenterOfMass(imageData, width, height, bbox)`. The result `none` is the
point `{ x: NaN, y: NaN }`. The two quotients are rounded to a double; halving `width` and
`height` is exact in doubles. -/
def getCenterOfMass (imageData : List Nat) (width height : Int) (bbox : BBox) : Option Point :=
  match centerOfMassSums imageData width bbox with
  | none => none
  | some (totalMass, comX, comY) =>
    if totalMass = 0 then some { x := (width : ℚ) / 2, y := (height : ℚ) / 2 }
    else some { x := roundToDouble (comX / totalMass), y := roundToDouble (comY / totalMass) }

/-- The mass `255 - avg` of pixel `(x, y)` in exact arithmetic, as a total function for use
in statements: it is `0` where the pixel cannot be read. -/
def pixelMass (imageData : List Nat) (width : Int) (x y : Int) : ℚ :=
  match avgAt imageData (pixelIndex width x y) with
  | some avg => 255 - avg
  | none => 0

/-- The total mass `sum(mass)` over the rectangle, as the specification writes it. -/
def specTotalMass (imageData : List Nat) (width : Int) (bbox : BBox) : ℚ :=
  ∑ y ∈ Finset.Icc bbox.minY bbox.maxY, ∑ x ∈ Finset.Icc bbox.minX bbox.maxX,
    pixelMass imageData width x y

/-- The moment `sum(x * mass)` over the rectangle, as the specification writes it. -/
def specMomentX (imageData : List Nat) (width : Int) (bbox : BBox) : ℚ :=
  ∑ y ∈ Finset.Icc bbox.minY bbox.maxY, ∑ x ∈ Finset.Icc bbox.minX bbox.maxX,
    (x : ℚ) * pixelMass imageData width x y

/-- The moment `sum(y * mass)` over the rectangle, as the specification writes it. -/
def specMomentY (imageData : List Nat) (width : Int) (bbox : BBox) : ℚ :=
  ∑ y ∈ Finset.Icc bbox.minY bbox.maxY, ∑ x ∈ Finset.Icc bbox.minX bbox.maxX,
    (y : ℚ) * pixelMass imageData width x y

/-! ## applyGaussianBlur (lines 143-169) -/

/-- The table `kernel`. -/
def kernel : List (List ℚ) :=
  [[1, 2, 1], [2, 4, 2], [1, 2, 1]]

/-- The constant `kernelSum`. -/
def kernelSum : ℚ := 16

/-- The expression `kernel[ky + 1][kx + 1]`. -/
def kernelWeight (ky kx : Int) : ℚ :=
  ((kernel.getD (ky + 1).toNat []).getD (kx + 1).toNat 0)

/-- The conversion applied when a number is stored into a `Uint8ClampedArray`: `NaN` gives
0, the value is clamped to 0..255 and rounded to the nearest integer, a tie going to the
even one. -/
def toUint8Clamp (v : Option ℚ) : Nat :=
  match v with
  | none => 0
  | some q =>
    if q ≤ 0 then 0
    else if 255 ≤ q then 255
    else
      let f := ⌊q⌋.toNat
      if q - (f : ℚ) < 1 / 2 then f
      else if 1 / 2 < q - (f : ℚ) then f + 1
      else if f % 2 = 0 then f else f + 1

/-- One iteration of the loop over `kx`: the red channel of the clamped neighbour times its
weight is added to `sum`. -/
def blurTap (imageData : List Nat) (width height : Nat) (x y : Nat) (sum : Option ℚ)
    (ky kx : Int) : Option ℚ :=
  let py : Int := min (max ((y : Int) + ky) 0) ((height : Int) - 1)
  let px : Int := min (max ((x : Int) + kx) 0) ((width : Int) - 1)
  let i := pixelIndex width px py
  let weight := kernelWeight ky kx
  match sum, readAt imageData i with
  | some s, some v => some (s + (v : ℚ) * weight)
  | _, _ => none

/-- The value of `sum` after the two kernel loops at pixel `(x, y)`. -/
def blurSum (imageData : List Nat) (width height : Nat) (x y : Nat) : Option ℚ :=
  ([-1, 0, 1] : List Int).foldl
    (fun sum ky => ([-1, 0, 1] : List Int).foldl
      (fun sum kx => blurTap imageData width height x y sum ky kx) sum)
    (some 0)

/-- The four stores at the end of the inner loop body: `blurred` into the three colour
channels of the pixel at index `i` and 255 into its alpha channel. A store outside the array
is ignored. -/
def storePixel (output : List Nat) (i : Nat) (blurred : Option ℚ) : List Nat :=
  (((output.set (i + 2) (toUint8Clamp blurred)).set (i + 1) (toUint8Clamp blurred)).set i
    (toUint8Clamp blurred)).set (i + 3) 255

/-- The function `applyGaussianBlur(imageData, width, height)`. The output array starts as
`imageData.length` zeros. -/
def applyGaussianBlur (imageData : List Nat) (width height : Nat) : List Nat :=
  (List.range height).foldl
    (fun output y => (List.range width).foldl
      (fun output x =>
        storePixel output ((y * width + x) * 4)
          ((blurSum imageData width height x y).map (fun sum => sum / kernelSum)))
      output)
    (List.replicate imageData.length 0)

/-- The channel value at index `j` of a buffer whose every pixel is `(r, r, r, 255)`. -/
def greyChannel (r j : Nat) : Nat :=
  if j % 4 = 3 then 255 else r

/-- The buffer of `w` by `h` pixels whose every pixel is `(r, r, r, 255)`. -/
def greyGrid (w h r : Nat) : List Nat :=
  (List.range (4 * w * h)).map (greyChannel r)

/-- A 2 by 2 buffer of one colour that is not grey: every pixel is `(10, 20, 30, 255)`. -/
def tintedBuffer : List Nat :=
  [10, 20, 30, 255, 10, 20, 30, 255, 10, 20, 30, 255, 10, 20, 30, 255]

/-- A 2 by 2 buffer of one opaque grey: every pixel is `(200, 200, 200, 255)`. -/
def greyBuffer : List Nat :=
  [200, 200, 200, 255, 200, 200, 200, 255, 200, 200, 200, 255, 200, 200, 200, 255]

/-! ## getImageData (lines 171-243) -/

/-- The constant `drawnWidth` of `getImageData`. -/
def drawnWidth (bbox : BBox) : Int :=
  bbox.maxX - bbox.minX + 1

/-- The constant `drawnHeight` of `getImageData`. -/
def drawnHeight (bbox : BBox) : Int :=
  bbox.maxY - bbox.minY + 1

/-- The constant `scale` of `getImageData`, `Math.min(20 / drawnWidth, 20 / drawnHeight)`.
Both dimensions are non-zero where the source evaluates it, because reading back a region
with a zero side throws before. -/
def scale (drawnWidth drawnHeight : Int) : ℚ :=
  min (20 / (drawnWidth : ℚ)) (20 / (drawnHeight : ℚ))

/-- The constant `scaledWidth` of `getImageData`. -/
def scaledWidth (drawnWidth drawnHeight : Int) : ℚ :=
  (drawnWidth : ℚ) * scale drawnWidth drawnHeight

/-- The constant `scaledHeight` of `getImageData`. -/
def scaledHeight (drawnWidth drawnHeight : Int) : ℚ :=
  (drawnHeight : ℚ) * scale drawnWidth drawnHeight

/-- The normalisation loop at the end of `getImageData` (lines 234-242): for every index
`i = 0, 4, 8, ...` below `pixels.length` it pushes `1.0 - avg / 255.0`. An entry `none` is
`NaN`. -/
def normalize (pixels : List Nat) : List (Option ℚ) :=
  ((List.range ((pixels.length + 3) / 4)).map (fun (k : Nat) => 4 * k)).foldl
    (fun (normalized : List (Option ℚ)) (i : Nat) =>
      normalized ++ [(avgAt pixels (i : Int)).map (fun avg => 1 - avg / 255)])
    []

/-- The browser canvas operations `getImageData` relies on. Each may throw.

* `crop data width height sx sy sw sh` is lines 181-192: the region of the drawing surface
  at `(sx, sy)` of size `sw` by `sh`, read back through a temporary canvas.
* `render cropped sw sh dw dh dx dy` is lines 200-222: the cropped image drawn at size
  `dw` by `dh` on an intermediate canvas, pasted at `(dx, dy)` on a white 28 by 28 canvas,
  and that canvas read back. -/
structure Canvas where
  crop : List Nat → Nat → Nat → Int → Int → Int → Int → Except String (List Nat)
  render : List Nat → Int → Int → ℚ → ℚ → Option ℚ → Option ℚ → Except String (List Nat)

/-- The function `getImageData()`, on the drawing surface's buffer `drawingData` of size
`width` by `height`. A thrown exception is `Except.error` with its message. -/
def getImageData (canvas : Canvas) (drawingData : List Nat) (width height : Nat) :
    Except String (List (Option ℚ)) :=
  let bbox := getBoundingBox drawingData width height
  let drawnWidth := drawnWidth bbox
  let drawnHeight := drawnHeight bbox
  match canvas.crop drawingData width height bbox.minX bbox.minY drawnWidth drawnHeight with
  | .error e => .error e
  | .ok croppedData =>
    let com := getCenterOfMass croppedData drawnWidth drawnHeight
      { minX := 0, minY := 0, maxX := drawnWidth - 1, maxY := drawnHeight - 1 }
    let scale := scale drawnWidth drawnHeight
    let scaledWidth := scaledWidth drawnWidth drawnHeight
    let scaledHeight := scaledHeight drawnWidth drawnHeight
    let comXScaled := com.map (fun p => p.x * scale)
    let comYScaled := com.map (fun p => p.y * scale)
    let offsetX := comXScaled.map (fun c => 14 - c)
    let offsetY := comYScaled.map (fun c => 14 - c)
    match canvas.render croppedData drawnWidth drawnHeight scaledWidth scaledHeight
        offsetX offsetY with
    | .error e => .error e
    | .ok imageData =>
      let blurredData1 := applyGaussianBlur imageData 28 28
      let blurredData2 := applyGaussianBlur blurredData1 28 28
      .ok (normalize blurredData2)

/-! ## sendToServer (lines 245-266) -/

/-- A parsed JSON value. -/
inductive JVal where
  | null : JVal
  | bool : Bool → JVal
  | num : ℚ → JVal
  | str : String → JVal
  | arr : List JVal → JVal
  | obj : List (String × JVal) → JVal

/-- The property read `result.name`: it throws on `null`, gives the field of an object, and
`none` (`undefined`) otherwise. -/
def JVal.field (result : JVal) (name : String) : Except String (Option JVal) :=
  match result with
  | .null => .error ("Cannot read properties of null (reading " ++ name ++ ")")
  | .obj fields => .ok (fields.lookup name)
  | _ => .ok none

/-- The operator `a ?? b` with `a` a property that was read: `b` when `a` is `undefined` or
`null`. -/
def nullish (a : Option JVal) (b : JVal) : JVal :=
  match a with
  | none => b
  | some .null => b
  | some v => v

/-- The expression `result.prediction ?? result.digit ?? result`. -/
def pickPrediction (result : JVal) : Except String JVal :=
  match result.field "prediction", result.field "digit" with
  | .ok p, .ok d => .ok (nullish p (nullish d result))
  | .error e, _ => .error e
  | _, .error e => .error e

/-- What `fetch` resolves to: the fields `ok` and `status`, and the outcome of `json()`. -/
structure Response where
  ok : Bool
  status : Nat
  json : Except String JVal

/-- The three pieces of component state `sendToServer` writes; `none` is `null`. -/
structure UIState where
  isLoading : Bool
  error : Option String
  predictedDigit : Option JVal

/-- A response with status 500 whose body nevertheless carries a prediction. -/
def failedResponse : Response :=
  { ok := false, status := 500, json := .ok (.obj [("prediction", .num 7)]) }

/-- A component state that shows the digit 3 from an earlier request. -/
def shownState : UIState :=
  { isLoading := false, error := none, predictedDigit := some (.num 3) }

/-- The body of the `try` block of `sendToServer`: the value passed to `setPredictedDigit`,
or the message of what was thrown. -/
def tryPredict (imageData : Except String (List (Option ℚ)))
    (fetch : List (Option ℚ) → Except String Response) : Except String JVal :=
  match imageData with
  | .error e => .error e
  | .ok image =>
    match fetch image with
    | .error e => .error e
    | .ok response =>
      if !response.ok then
        .error ("Server responded with " ++ toString response.status)
      else
        match response.json with
        | .error e => .error e
        | .ok result => pickPrediction result

/-- The function `sendToServer()` as a transition of the component state. `imageData` is the
outcome of the call `getImageData()` and `fetch` that of the request for a given payload. -/
def sendToServer (s : UIState) (imageData : Except String (List (Option ℚ)))
    (fetch : List (Option ℚ) → Except String Response) : UIState :=
  let s := { s with isLoading := true }
  let s := { s with error := none }
  let s := { s with predictedDigit := none }
  let s :=
    match tryPredict imageData fetch with
    | .ok digit => { s with predictedDigit := some digit }
    | .error message => { s with error := some message }
  { s with isLoading := false }

/-! ## Reading pixels -/

theorem readAt_natCast (imageData : List Nat) (n : Nat) :
    readAt imageData (n : Int) = imageData[n]? := by
  simp [readAt]

theorem readAt_natCast_add (imageData : List Nat) (n k : Nat) :
    readAt imageData ((n : Int) + (k : Int)) = imageData[n + k]? := by
  rw [← Nat.cast_add, readAt_natCast]

theorem pixelIndex_natCast (width x y : Nat) :
    pixelIndex (width : Int) (x : Int) (y : Int) = (((y * width + x) * 4 : Nat) : Int) := by
  simp [pixelIndex]

theorem pixel_lt {w h x y : Nat} (hx : x < w) (hy : y < h) : y * w + x < w * h := by
  have h1 : (y + 1) * w ≤ h * w := Nat.mul_le_mul_right w hy
  have h2 : (y + 1) * w = y * w + w := by ring
  have h3 : h * w = w * h := Nat.mul_comm h w
  omega

theorem avgAt_natCast (imageData : List Nat) (n : Nat) :
    avgAt imageData (n : Int) =
      match imageData[n]?, imageData[n + 1]?, imageData[n + 2]? with
      | some r, some g, some b => some (((r : ℚ) + (g : ℚ) + (b : ℚ)) / 3)
      | _, _, _ => none := by
  have h1 : readAt imageData ((n : Int) + 1) = imageData[n + 1]? := by
    have := readAt_natCast_add imageData n 1
    simpa using this
  have h2 : readAt imageData ((n : Int) + 2) = imageData[n + 2]? := by
    have := readAt_natCast_add imageData n 2
    simpa using this
  simp only [avgAt, readAt_natCast, h1, h2]

theorem avgAt_some (imageData : List Nat) (n : Nat) (h : n + 2 < imageData.length) :
    ∃ r g b, imageData[n]? = some r ∧ imageData[n + 1]? = some g ∧ imageData[n + 2]? = some b ∧
      avgAt imageData (n : Int) = some (((r : ℚ) + (g : ℚ) + (b : ℚ)) / 3) := by
  have h0 : n < imageData.length := by omega
  have h1 : n + 1 < imageData.length := by omega
  refine ⟨imageData[n], imageData[n + 1], imageData[n + 2], ?_, ?_, ?_, ?_⟩
  · exact List.getElem?_eq_getElem h0
  · exact List.getElem?_eq_getElem h1
  · exact List.getElem?_eq_getElem h
  · rw [avgAt_natCast, List.getElem?_eq_getElem h0, List.getElem?_eq_getElem h1,
      List.getElem?_eq_getElem h]

theorem pixelMean_some (imageData : List Nat) (w h x y : Nat)
    (hlen : imageData.length = 4 * w * h) (hx : x < w) (hy : y < h) :
    ∃ avg, pixelMean imageData w x y = some avg := by
  have hp := pixel_lt hx hy
  have hl : (y * w + x) * 4 + 2 < imageData.length := by
    rw [hlen, Nat.mul_assoc]; omega
  obtain ⟨r, g, b, -, -, -, hav⟩ := avgAt_some imageData ((y * w + x) * 4) hl
  exact ⟨_, by rw [pixelMean, pixelIndex_natCast, hav]⟩

theorem isBackground_of_not_isInk (imageData : List Nat) (w h x y : Nat)
    (hlen : imageData.length = 4 * w * h) (hx : x < w) (hy : y < h)
    (hn : isInk imageData w x y = false) : isBackground imageData w x y = true := by
  obtain ⟨avg, hav⟩ := pixelMean_some imageData w h x y hlen hx hy
  simp only [isInk, hav, decide_eq_false_iff_not, not_lt] at hn
  simp [isBackground, hav, hn]

theorem not_isInk_of_isBackground (imageData : List Nat) (w x y : Nat)
    (hb : isBackground imageData w x y = true) : isInk imageData w x y = false := by
  unfold isBackground at hb
  unfold isInk
  cases hm : pixelMean imageData w x y with
  | none => rfl
  | some avg =>
    rw [hm] at hb
    simp only [decide_eq_true_eq] at hb
    simp only [decide_eq_false_iff_not, not_lt]
    exact hb

/-! ## Loops -/

theorem foldl_nested {β X Y : Type} (f : β → X → Y → β) (ys : List Y) (xs : List X) (b : β) :
    ys.foldl (fun b y => xs.foldl (fun b x => f b x y) b) b =
      (ys.flatMap (fun y => xs.map (fun x => (x, y)))).foldl (fun b p => f b p.1 p.2) b := by
  induction ys generalizing b with
  | nil => rfl
  | cons y ys ih =>
    simp only [List.foldl_cons, List.flatMap_cons, List.foldl_append, List.foldl_map]
    exact ih _

theorem mem_grid {X Y : Type} (ys : List Y) (xs : List X) (p : X × Y) :
    p ∈ ys.flatMap (fun y => xs.map (fun x => (x, y))) ↔ p.1 ∈ xs ∧ p.2 ∈ ys := by
  obtain ⟨a, b⟩ := p
  simp only [List.mem_flatMap, List.mem_map, Prod.mk.injEq]
  constructor
  · rintro ⟨y, hy, x, hx, rfl, rfl⟩
    exact ⟨hx, hy⟩
  · rintro ⟨hx, hy⟩
    exact ⟨b, hy, a, hx, rfl, rfl⟩

/-! ## getBoundingBox -/

theorem boundingBoxStep_ink (imageData : List Nat) (w : Nat) (box : BBox) (x y : Nat)
    (h : isInk imageData w x y = true) :
    boundingBoxStep imageData w box x y =
      { minX := min box.minX x, minY := min box.minY y,
        maxX := max box.maxX x, maxY := max box.maxY y } := by
  unfold isInk pixelMean at h
  unfold boundingBoxStep
  cases hm : avgAt imageData (pixelIndex w x y) with
  | none => rw [hm] at h; simp at h
  | some avg =>
    rw [hm] at h
    simp only [decide_eq_true_eq] at h
    simp [h]

theorem boundingBoxStep_not_ink (imageData : List Nat) (w : Nat) (box : BBox) (x y : Nat)
    (h : isInk imageData w x y = false) :
    boundingBoxStep imageData w box x y = box := by
  unfold isInk pixelMean at h
  unfold boundingBoxStep
  cases hm : avgAt imageData (pixelIndex w x y) with
  | none => rfl
  | some avg =>
    rw [hm] at h
    simp only [decide_eq_false_iff_not] at h
    simp [h]

/-- One step of the scan: the bounds only widen, they enclose the pixel when it is ink, and a
bound that moved is the coordinate of this pixel, which is then ink. -/
theorem boundingBoxStep_spec (imageData : List Nat) (w : Nat) (box : BBox) (x y : Nat) :
    ((boundingBoxStep imageData w box x y).minX ≤ box.minX ∧
      (boundingBoxStep imageData w box x y).minY ≤ box.minY ∧
      box.maxX ≤ (boundingBoxStep imageData w box x y).maxX ∧
      box.maxY ≤ (boundingBoxStep imageData w box x y).maxY) ∧
    (isInk imageData w x y = true →
      (boundingBoxStep imageData w box x y).minX ≤ (x : Int) ∧
      (x : Int) ≤ (boundingBoxStep imageData w box x y).maxX ∧
      (boundingBoxStep imageData w box x y).minY ≤ (y : Int) ∧
      (y : Int) ≤ (boundingBoxStep imageData w box x y).maxY) ∧
    ((boundingBoxStep imageData w box x y).minX = box.minX ∨
      (isInk imageData w x y = true ∧ (x : Int) = (boundingBoxStep imageData w box x y).minX)) ∧
    ((boundingBoxStep imageData w box x y).minY = box.minY ∨
      (isInk imageData w x y = true ∧ (y : Int) = (boundingBoxStep imageData w box x y).minY)) ∧
    ((boundingBoxStep imageData w box x y).maxX = box.maxX ∨
      (isInk imageData w x y = true ∧ (x : Int) = (boundingBoxStep imageData w box x y).maxX)) ∧
    ((boundingBoxStep imageData w box x y).maxY = box.maxY ∨
      (isInk imageData w x y = true ∧ (y : Int) = (boundingBoxStep imageData w box x y).maxY)) := by
  cases hq : isInk imageData w x y with
  | false =>
    rw [boundingBoxStep_not_ink imageData w box x y hq]
    simp
  | true =>
    rw [boundingBoxStep_ink imageData w box x y hq]
    refine ⟨⟨min_le_left _ _, min_le_left _ _, le_max_left _ _, le_max_left _ _⟩,
      fun _ => ⟨min_le_right _ _, le_max_right _ _, min_le_right _ _, le_max_right _ _⟩,
      ?_, ?_, ?_, ?_⟩
    · rcases le_total box.minX (x : Int) with hc | hc
      · exact Or.inl (min_eq_left hc)
      · exact Or.inr ⟨rfl, (min_eq_right hc).symm⟩
    · rcases le_total box.minY (y : Int) with hc | hc
      · exact Or.inl (min_eq_left hc)
      · exact Or.inr ⟨rfl, (min_eq_right hc).symm⟩
    · rcases le_total (x : Int) box.maxX with hc | hc
      · exact Or.inl (max_eq_left hc)
      · exact Or.inr ⟨rfl, (max_eq_right hc).symm⟩
    · rcases le_total (y : Int) box.maxY with hc | hc
      · exact Or.inl (max_eq_left hc)
      · exact Or.inr ⟨rfl, (max_eq_right hc).symm⟩

/-- What the scan computes over any list of pixels: the bounds only widen, they enclose every
ink pixel scanned, and each bound is either the initial one or attained by an ink pixel. -/
theorem boundingBox_fold (imageData : List Nat) (w : Nat) (L : List (Nat × Nat)) (b0 : BBox) :
    ((L.foldl (fun b p => boundingBoxStep imageData w b p.1 p.2) b0).minX ≤ b0.minX ∧
      (L.foldl (fun b p => boundingBoxStep imageData w b p.1 p.2) b0).minY ≤ b0.minY ∧
      b0.maxX ≤ (L.foldl (fun b p => boundingBoxStep imageData w b p.1 p.2) b0).maxX ∧
      b0.maxY ≤ (L.foldl (fun b p => boundingBoxStep imageData w b p.1 p.2) b0).maxY) ∧
    (∀ p ∈ L, isInk imageData w p.1 p.2 = true →
      (L.foldl (fun b p => boundingBoxStep imageData w b p.1 p.2) b0).minX ≤ (p.1 : Int) ∧
      (p.1 : Int) ≤ (L.foldl (fun b p => boundingBoxStep imageData w b p.1 p.2) b0).maxX ∧
      (L.foldl (fun b p => boundingBoxStep imageData w b p.1 p.2) b0).minY ≤ (p.2 : Int) ∧
      (p.2 : Int) ≤ (L.foldl (fun b p => boundingBoxStep imageData w b p.1 p.2) b0).maxY) ∧
    ((L.foldl (fun b p => boundingBoxStep imageData w b p.1 p.2) b0).minX = b0.minX ∨
      ∃ p ∈ L, isInk imageData w p.1 p.2 = true ∧
        (p.1 : Int) = (L.foldl (fun b p => boundingBoxStep imageData w b p.1 p.2) b0).minX) ∧
    ((L.foldl (fun b p => boundingBoxStep imageData w b p.1 p.2) b0).minY = b0.minY ∨
      ∃ p ∈ L, isInk imageData w p.1 p.2 = true ∧
        (p.2 : Int) = (L.foldl (fun b p => boundingBoxStep imageData w b p.1 p.2) b0).minY) ∧
    ((L.foldl (fun b p => boundingBoxStep imageData w b p.1 p.2) b0).maxX = b0.maxX ∨
      ∃ p ∈ L, isInk imageData w p.1 p.2 = true ∧
        (p.1 : Int) = (L.foldl (fun b p => boundingBoxStep imageData w b p.1 p.2) b0).maxX) ∧
    ((L.foldl (fun b p => boundingBoxStep imageData w b p.1 p.2) b0).maxY = b0.maxY ∨
      ∃ p ∈ L, isInk imageData w p.1 p.2 = true ∧
        (p.2 : Int) = (L.foldl (fun b p => boundingBoxStep imageData w b p.1 p.2) b0).maxY) := by
  induction L generalizing b0 with
  | nil => simp
  | cons q L ih =>
    simp only [List.foldl_cons]
    obtain ⟨⟨m1, m2, m3, m4⟩, hin, a1, a2, a3, a4⟩ := ih (boundingBoxStep imageData w b0 q.1 q.2)
    obtain ⟨⟨s1, s2, s3, s4⟩, sin, t1, t2, t3, t4⟩ := boundingBoxStep_spec imageData w b0 q.1 q.2
    refine ⟨⟨le_trans m1 s1, le_trans m2 s2, le_trans s3 m3, le_trans s4 m4⟩, ?_, ?_, ?_, ?_, ?_⟩
    · intro p hp hpi
      rcases List.mem_cons.1 hp with rfl | hp
      · obtain ⟨u1, u2, u3, u4⟩ := sin hpi
        exact ⟨le_trans m1 u1, le_trans u2 m3, le_trans m2 u3, le_trans u4 m4⟩
      · exact hin p hp hpi
    · rcases a1 with h | ⟨p, hp, hpi, hpe⟩
      · rcases t1 with t | ⟨ti, te⟩
        · exact Or.inl (h.trans t)
        · exact Or.inr ⟨q, List.mem_cons_self _ _, ti, te.trans h.symm⟩
      · exact Or.inr ⟨p, List.mem_cons_of_mem _ hp, hpi, hpe⟩
    · rcases a2 with h | ⟨p, hp, hpi, hpe⟩
      · rcases t2 with t | ⟨ti, te⟩
        · exact Or.inl (h.trans t)
        · exact Or.inr ⟨q, List.mem_cons_self _ _, ti, te.trans h.symm⟩
      · exact Or.inr ⟨p, List.mem_cons_of_mem _ hp, hpi, hpe⟩
    · rcases a3 with h | ⟨p, hp, hpi, hpe⟩
      · rcases t3 with t | ⟨ti, te⟩
        · exact Or.inl (h.trans t)
        · exact Or.inr ⟨q, List.mem_cons_self _ _, ti, te.trans h.symm⟩
      · exact Or.inr ⟨p, List.mem_cons_of_mem _ hp, hpi, hpe⟩
    · rcases a4 with h | ⟨p, hp, hpi, hpe⟩
      · rcases t4 with t | ⟨ti, te⟩
        · exact Or.inl (h.trans t)
        · exact Or.inr ⟨q, List.mem_cons_self _ _, ti, te.trans h.symm⟩
      · exact Or.inr ⟨p, List.mem_cons_of_mem _ hp, hpi, hpe⟩

/-- The pixels scanned by `getBoundingBox`, in scan order. -/
theorem getBoundingBox_eq_fold (imageData : List Nat) (w h : Nat) :
    getBoundingBox imageData w h =
      ((List.range h).flatMap (fun y => (List.range w).map (fun x => (x, y)))).foldl
        (fun b p => boundingBoxStep imageData w b p.1 p.2)
        { minX := w, minY := h, maxX := 0, maxY := 0 } := by
  unfold getBoundingBox
  exact foldl_nested (fun b x y => boundingBoxStep imageData w b x y) _ _ _

theorem mem_scan (w h : Nat) (p : Nat × Nat) :
    p ∈ (List.range h).flatMap (fun y => (List.range w).map (fun x => (x, y))) ↔
      p.1 < w ∧ p.2 < h := by
  rw [mem_grid, List.mem_range, List.mem_range]

/-- The box is determined by what it encloses: a rectangle that encloses every ink pixel and
has ink on each of its four sides is the one `getBoundingBox` returns. -/
theorem getBoundingBox_eq (imageData : List Nat) (w h a c b d : Nat)
    (henc : ∀ x y, x < w → y < h → isInk imageData w x y = true →
      a ≤ x ∧ x ≤ b ∧ c ≤ y ∧ y ≤ d)
    (hleft : ∃ y, y < h ∧ a < w ∧ isInk imageData w a y = true)
    (hright : ∃ y, y < h ∧ b < w ∧ isInk imageData w b y = true)
    (htop : ∃ x, x < w ∧ c < h ∧ isInk imageData w x c = true)
    (hbottom : ∃ x, x < w ∧ d < h ∧ isInk imageData w x d = true) :
    getBoundingBox imageData w h = { minX := a, minY := c, maxX := b, maxY := d } := by
  rw [getBoundingBox_eq_fold]
  obtain ⟨-, hin, a1, a2, a3, a4⟩ := boundingBox_fold imageData w
    ((List.range h).flatMap (fun y => (List.range w).map (fun x => (x, y))))
    { minX := w, minY := h, maxX := 0, maxY := 0 }
  generalize ((List.range h).flatMap (fun y => (List.range w).map (fun x => (x, y)))).foldl
    (fun b p => boundingBoxStep imageData w b p.1 p.2)
    { minX := w, minY := h, maxX := 0, maxY := 0 } = B at hin a1 a2 a3 a4 ⊢
  obtain ⟨y1, hy1, haw, hi1⟩ := hleft
  obtain ⟨y2, hy2, hbw, hi2⟩ := hright
  obtain ⟨x3, hx3, hch, hi3⟩ := htop
  obtain ⟨x4, hx4, hdh, hi4⟩ := hbottom
  have e1 := hin (a, y1) ((mem_scan w h _).2 ⟨haw, hy1⟩) hi1
  have e2 := hin (b, y2) ((mem_scan w h _).2 ⟨hbw, hy2⟩) hi2
  have e3 := hin (x3, c) ((mem_scan w h _).2 ⟨hx3, hch⟩) hi3
  have e4 := hin (x4, d) ((mem_scan w h _).2 ⟨hx4, hdh⟩) hi4
  simp only at e1 e2 e3 e4 a1 a2 a3 a4
  have k1 : B.minX = (a : Int) := by
    rcases a1 with hB | ⟨p, hp, hpi, hpe⟩
    · omega
    · have := henc p.1 p.2 ((mem_scan w h p).1 hp).1 ((mem_scan w h p).1 hp).2 hpi
      omega
  have k2 : B.minY = (c : Int) := by
    rcases a2 with hB | ⟨p, hp, hpi, hpe⟩
    · omega
    · have := henc p.1 p.2 ((mem_scan w h p).1 hp).1 ((mem_scan w h p).1 hp).2 hpi
      omega
  have k3 : B.maxX = (b : Int) := by
    rcases a3 with hB | ⟨p, hp, hpi, hpe⟩
    · omega
    · have := henc p.1 p.2 ((mem_scan w h p).1 hp).1 ((mem_scan w h p).1 hp).2 hpi
      omega
  have k4 : B.maxY = (d : Int) := by
    rcases a4 with hB | ⟨p, hp, hpi, hpe⟩
    · omega
    · have := henc p.1 p.2 ((mem_scan w h p).1 hp).1 ((mem_scan w h p).1 hp).2 hpi
      omega
  cases B
  simp only at k1 k2 k3 k4
  simp [k1, k2, k3, k4]

/-- Without ink the scan leaves the initial box untouched. -/
theorem getBoundingBox_no_ink (imageData : List Nat) (w h : Nat)
    (hno : ∀ x y, x < w → y < h → isInk imageData w x y = false) :
    getBoundingBox imageData w h = { minX := w, minY := h, maxX := 0, maxY := 0 } := by
  rw [getBoundingBox_eq_fold]
  obtain ⟨-, -, a1, a2, a3, a4⟩ := boundingBox_fold imageData w
    ((List.range h).flatMap (fun y => (List.range w).map (fun x => (x, y))))
    { minX := w, minY := h, maxX := 0, maxY := 0 }
  generalize ((List.range h).flatMap (fun y => (List.range w).map (fun x => (x, y)))).foldl
    (fun b p => boundingBoxStep imageData w b p.1 p.2)
    { minX := w, minY := h, maxX := 0, maxY := 0 } = B at a1 a2 a3 a4 ⊢
  have key : ∀ p ∈ (List.range h).flatMap (fun y => (List.range w).map (fun x => (x, y))),
      isInk imageData w p.1 p.2 = true → False := by
    intro p hp hpi
    have := hno p.1 p.2 ((mem_scan w h p).1 hp).1 ((mem_scan w h p).1 hp).2
    rw [this] at hpi
    cases hpi
  have k1 : B.minX = (w : Int) := by
    rcases a1 with hB | ⟨p, hp, hpi, -⟩
    · exact hB
    · exact (key p hp hpi).elim
  have k2 : B.minY = (h : Int) := by
    rcases a2 with hB | ⟨p, hp, hpi, -⟩
    · exact hB
    · exact (key p hp hpi).elim
  have k3 : B.maxX = 0 := by
    rcases a3 with hB | ⟨p, hp, hpi, -⟩
    · exact hB
    · exact (key p hp hpi).elim
  have k4 : B.maxY = 0 := by
    rcases a4 with hB | ⟨p, hp, hpi, -⟩
    · exact hB
    · exact (key p hp hpi).elim
  cases B
  simp only at k1 k2 k3 k4
  simp [k1, k2, k3, k4]

/-! ## The square test buffer -/

theorem squareBuffer_get (n : Nat) (hn : n < 40000) :
    squareBuffer[n]? = some (if n % 4 = 3 then 255
      else if 45 ≤ (n / 4) % 100 ∧ (n / 4) % 100 ≤ 54 ∧ 45 ≤ (n / 4) / 100 ∧ (n / 4) / 100 ≤ 54
      then 0 else 255) := by
  unfold squareBuffer
  rw [List.getElem?_map, List.getElem?_range (by omega)]
  rfl

theorem squareBuffer_length : squareBuffer.length = 4 * 100 * 100 := by
  simp [squareBuffer]

theorem squareBuffer_mean (x y : Nat) (hx : x < 100) (hy : y < 100) :
    pixelMean squareBuffer 100 x y =
      some (if 45 ≤ x ∧ x ≤ 54 ∧ 45 ≤ y ∧ y ≤ 54 then 0 else 255) := by
  have e0 : ((y * 100 + x) * 4) % 4 = 0 := by omega
  have e1 : ((y * 100 + x) * 4 + 1) % 4 = 1 := by omega
  have e2 : ((y * 100 + x) * 4 + 2) % 4 = 2 := by omega
  have d0 : ((y * 100 + x) * 4) / 4 = y * 100 + x := by omega
  have d1 : ((y * 100 + x) * 4 + 1) / 4 = y * 100 + x := by omega
  have d2 : ((y * 100 + x) * 4 + 2) / 4 = y * 100 + x := by omega
  have mx : (y * 100 + x) % 100 = x := by omega
  have my : (y * 100 + x) / 100 = y := by omega
  have hp := pixelIndex_natCast 100 x y
  simp only [Nat.cast_ofNat] at hp
  unfold pixelMean
  simp only [Nat.cast_ofNat]
  rw [hp, avgAt_natCast, squareBuffer_get _ (by omega), squareBuffer_get _ (by omega),
    squareBuffer_get _ (by omega)]
  simp only [e0, e1, e2, d0, d1, d2, mx, my]
  by_cases hsq : 45 ≤ x ∧ x ≤ 54 ∧ 45 ≤ y ∧ y ≤ 54
  · simp [hsq]
  · simp only [hsq, if_false]
    norm_num

theorem isInk_of_mean (imageData : List Nat) (w x y : Nat) (avg : ℚ)
    (h : pixelMean imageData w x y = some avg) :
    isInk imageData w x y = decide (avg < 250) := by
  unfold isInk
  rw [h]

theorem squareBuffer_isInk (x y : Nat) (hx : x < 100) (hy : y < 100) :
    isInk squareBuffer 100 x y = decide (45 ≤ x ∧ x ≤ 54 ∧ 45 ≤ y ∧ y ≤ 54) := by
  rw [isInk_of_mean _ _ _ _ _ (squareBuffer_mean x y hx hy)]
  by_cases hsq : 45 ≤ x ∧ x ≤ 54 ∧ 45 ≤ y ∧ y ≤ 54
  · rw [if_pos hsq, decide_eq_true hsq, decide_eq_true (by norm_num)]
  · rw [if_neg hsq, decide_eq_false hsq, decide_eq_false (by norm_num)]

theorem squareBuffer_box :
    getBoundingBox squareBuffer 100 100 = { minX := 45, minY := 45, maxX := 54, maxY := 54 } := by
  have key := getBoundingBox_eq squareBuffer 100 100 45 45 54 54
    (by
      intro x y hx hy hi
      rw [squareBuffer_isInk x y hx hy] at hi
      have := of_decide_eq_true hi
      omega)
    ⟨45, by omega, by omega, by rw [squareBuffer_isInk 45 45 (by omega) (by omega)]; decide⟩
    ⟨45, by omega, by omega, by rw [squareBuffer_isInk 54 45 (by omega) (by omega)]; decide⟩
    ⟨45, by omega, by omega, by rw [squareBuffer_isInk 45 45 (by omega) (by omega)]; decide⟩
    ⟨45, by omega, by omega, by rw [squareBuffer_isInk 45 54 (by omega) (by omega)]; decide⟩
  simpa using key

/-! ## Rounding to a double -/

theorem roundHalfEven_nearest (t : ℚ) (z : Int) :
    |((roundHalfEven t : Int) : ℚ) - t| ≤ |(z : ℚ) - t| := by
  have h1 : (⌊t⌋ : ℚ) ≤ t := Int.floor_le t
  have h2 : t < (⌊t⌋ : ℚ) + 1 := Int.lt_floor_add_one t
  have hz : |(z : ℚ) - t| ≥ t - (⌊t⌋ : ℚ) ∧ |(z : ℚ) - t| ≥ (⌊t⌋ : ℚ) + 1 - t ∨
      |(z : ℚ) - t| ≥ t - (⌊t⌋ : ℚ) ∧ t - (⌊t⌋ : ℚ) ≤ (⌊t⌋ : ℚ) + 1 - t ∧ z ≤ ⌊t⌋ ∨
      |(z : ℚ) - t| ≥ (⌊t⌋ : ℚ) + 1 - t ∧ (⌊t⌋ : ℚ) + 1 - t ≤ t - (⌊t⌋ : ℚ) ∧ ⌊t⌋ + 1 ≤ z ∨
      True := Or.inr (Or.inr (Or.inr trivial))
  clear hz
  have key : t - (⌊t⌋ : ℚ) ≤ |(z : ℚ) - t| ∨ (⌊t⌋ : ℚ) + 1 - t ≤ |(z : ℚ) - t| := by
    rcases le_or_lt z ⌊t⌋ with hz | hz
    · left
      have : (z : ℚ) ≤ (⌊t⌋ : ℚ) := by exact_mod_cast hz
      rw [abs_sub_comm]
      exact le_trans (by linarith) (le_abs_self _)
    · right
      have : (⌊t⌋ : ℚ) + 1 ≤ (z : ℚ) := by exact_mod_cast hz
      exact le_trans (by linarith) (le_abs_self _)
  unfold roundHalfEven
  split_ifs with c1 c2 c3
  · rw [abs_sub_comm, abs_of_nonneg (by linarith)]
    rcases key with k | k <;> linarith
  · push_cast
    rw [abs_of_nonneg (by linarith)]
    rcases key with k | k <;> linarith
  · have e : t - (⌊t⌋ : ℚ) = 1 / 2 := le_antisymm (not_lt.1 c2) (not_lt.1 c1)
    rw [abs_sub_comm, abs_of_nonneg (by linarith)]
    rcases key with k | k <;> linarith
  · have e : t - (⌊t⌋ : ℚ) = 1 / 2 := le_antisymm (not_lt.1 c2) (not_lt.1 c1)
    push_cast
    rw [abs_of_nonneg (by linarith)]
    rcases key with k | k <;> linarith

theorem roundToDouble_zero : roundToDouble 0 = 0 := by
  simp [roundToDouble]

/-- A value `M * 2 ^ S` with `|M| ≤ 2 ^ 53` is never nearer to `q` than `roundToDouble q`. -/
theorem roundToDouble_nearest (q : ℚ) (M S : Int) (hM : |M| ≤ 2 ^ 53) :
    |roundToDouble q - q| ≤ |(M : ℚ) * (2 : ℚ) ^ S - q| := by
  by_cases hq : q = 0
  · rw [hq, roundToDouble_zero]
    simp
  have ha : 0 < |q| := abs_pos.2 hq
  have hlog : (2 : ℚ) ^ Int.log 2 |q| ≤ |q| := by
    have := Int.zpow_log_le_self (b := 2) (by norm_num) ha
    exact_mod_cast this
  unfold roundToDouble
  rw [if_neg hq]
  generalize Int.log 2 |q| = e at hlog ⊢
  have hP : (0 : ℚ) < (2 : ℚ) ^ (e - 52) := zpow_pos (by norm_num) _
  have ht : (4503599627370496 : ℚ) ≤ |q / (2 : ℚ) ^ (e - 52)| := by
    rw [abs_div, abs_of_pos hP, le_div_iff₀ hP]
    have : (4503599627370496 : ℚ) * (2 : ℚ) ^ (e - 52) = (2 : ℚ) ^ e := by
      have h52 : (4503599627370496 : ℚ) = (2 : ℚ) ^ (52 : Int) := by norm_num
      rw [h52, ← zpow_add₀ (by norm_num : (2 : ℚ) ≠ 0)]
      congr 1
      omega
    rw [this]
    exact hlog
  have hq' : q = q / (2 : ℚ) ^ (e - 52) * (2 : ℚ) ^ (e - 52) := by
    field_simp
  generalize q / (2 : ℚ) ^ (e - 52) = t at ht hq'
  have hρ : (M : ℚ) * (2 : ℚ) ^ S =
      ((M : ℚ) * (2 : ℚ) ^ (S - (e - 52))) * (2 : ℚ) ^ (e - 52) := by
    rw [mul_assoc, ← zpow_add₀ (by norm_num : (2 : ℚ) ≠ 0)]
    congr 2
    omega
  rw [hρ]
  nth_rewrite 2 [hq']
  nth_rewrite 1 [hq']
  rw [← sub_mul, ← sub_mul, abs_mul, abs_mul, abs_of_pos hP]
  apply mul_le_mul_of_nonneg_right _ hP.le
  rcases le_or_lt (e - 52) S with hS | hS
  · have e1 : (2 : ℚ) ^ (S - (e - 52)) = (((2 : Int) ^ (S - (e - 52)).toNat : Int) : ℚ) := by
      push_cast
      rw [← zpow_natCast, Int.toNat_of_nonneg (by omega)]
    rw [e1, ← Int.cast_mul]
    exact roundHalfEven_nearest t _
  · have e1 : (2 : ℚ) ^ (S - (e - 52)) ≤ 1 / 2 := by
      have := zpow_le_zpow_right₀ (a := (2 : ℚ)) (by norm_num) (by omega : S - (e - 52) ≤ -1)
      simpa using this
    have e0 : (0 : ℚ) < (2 : ℚ) ^ (S - (e - 52)) := zpow_pos (by norm_num) _
    have hMq : |(M : ℚ)| ≤ 9007199254740992 := by
      have : ((|M| : Int) : ℚ) ≤ ((2 ^ 53 : Int) : ℚ) := by exact_mod_cast hM
      have h2 : (((2 : Int) ^ 53 : Int) : ℚ) = 9007199254740992 := by norm_num
      rw [h2] at this
      simpa using this
    have hρ2 : |(M : ℚ) * (2 : ℚ) ^ (S - (e - 52))| ≤ 4503599627370496 := by
      rw [abs_mul, abs_of_pos e0]
      calc |(M : ℚ)| * (2 : ℚ) ^ (S - (e - 52)) ≤ 9007199254740992 * (1 / 2) :=
            mul_le_mul hMq e1 e0.le (by norm_num)
        _ = 4503599627370496 := by norm_num
    generalize (M : ℚ) * (2 : ℚ) ^ (S - (e - 52)) = ρ at hρ2
    rcases le_or_lt 0 t with h0 | h0
    · rw [abs_of_nonneg h0] at ht
      have n1 := roundHalfEven_nearest t 4503599627370496
      have e2 : |((4503599627370496 : Int) : ℚ) - t| = t - 4503599627370496 := by
        push_cast
        rw [abs_of_nonpos (by linarith)]
        ring
      rw [e2] at n1
      have hρ3 := (abs_le.1 hρ2).2
      rw [abs_of_nonpos (by linarith : ρ - t ≤ 0)]
      linarith
    · rw [abs_of_neg h0] at ht
      have n1 := roundHalfEven_nearest t (-4503599627370496)
      have e2 : |((-4503599627370496 : Int) : ℚ) - t| = -4503599627370496 - t := by
        push_cast
        rw [abs_of_nonneg (by linarith)]
      rw [e2] at n1
      have hρ3 := (abs_le.1 hρ2).1
      rw [abs_of_nonneg (by linarith : 0 ≤ ρ - t)]
      linarith

theorem roundToDouble_representable (M S : Int) (hM : |M| ≤ 2 ^ 53) :
    roundToDouble ((M : ℚ) * (2 : ℚ) ^ S) = (M : ℚ) * (2 : ℚ) ^ S := by
  have h := roundToDouble_nearest ((M : ℚ) * (2 : ℚ) ^ S) M S hM
  rw [sub_self, abs_zero] at h
  exact sub_eq_zero.1 (abs_eq_zero.1 (le_antisymm h (abs_nonneg _)))

theorem roundToDouble_natCast (n : Nat) (hn : n ≤ 2 ^ 53) : roundToDouble (n : ℚ) = (n : ℚ) := by
  have h := roundToDouble_representable (n : Int) 0 (by rw [abs_of_nonneg (by omega)]; exact_mod_cast hn)
  simpa using h

theorem roundToDouble_half (n : Int) (hn : |n| ≤ 2 ^ 53) :
    roundToDouble ((n : ℚ) / 2) = (n : ℚ) / 2 := by
  have h := roundToDouble_representable n (-1) hn
  have e : (n : ℚ) * (2 : ℚ) ^ (-1 : Int) = (n : ℚ) / 2 := by
    rw [zpow_neg_one, div_eq_mul_inv]
  rw [e] at h
  exact h

theorem le_roundToDouble (q : ℚ) (a : Int) (ha : |a| ≤ 2 ^ 53) (h : (a : ℚ) ≤ q) :
    (a : ℚ) ≤ roundToDouble q := by
  by_contra hc
  push_neg at hc
  have hn := roundToDouble_nearest q a 0 ha
  rw [zpow_zero, mul_one, abs_of_nonpos (by linarith : roundToDouble q - q ≤ 0),
    abs_of_nonpos (by linarith : (a : ℚ) - q ≤ 0)] at hn
  linarith

theorem roundToDouble_le (q : ℚ) (b : Int) (hb : |b| ≤ 2 ^ 53) (h : q ≤ (b : ℚ)) :
    roundToDouble q ≤ (b : ℚ) := by
  by_contra hc
  push_neg at hc
  have hn := roundToDouble_nearest q b 0 hb
  rw [zpow_zero, mul_one, abs_of_nonneg (by linarith), abs_of_nonneg (by linarith)] at hn
  linarith

theorem roundHalfEven_down (t : ℚ) (f : Int) (h1 : (f : ℚ) ≤ t) (h2 : t - (f : ℚ) < 1 / 2) :
    roundHalfEven t = f := by
  have hf : ⌊t⌋ = f := Int.floor_eq_iff.2 ⟨h1, by linarith⟩
  unfold roundHalfEven
  rw [hf, if_pos h2]

theorem roundHalfEven_up (t : ℚ) (f : Int) (h1 : 1 / 2 < t - (f : ℚ)) (h2 : t < (f : ℚ) + 1) :
    roundHalfEven t = f + 1 := by
  have hf : ⌊t⌋ = f := Int.floor_eq_iff.2 ⟨by linarith, h2⟩
  unfold roundHalfEven
  rw [hf, if_neg (by linarith), if_pos h1]

theorem roundHalfEven_tie_even (t : ℚ) (f : Int) (h : t = (f : ℚ) + 1 / 2) (he : f % 2 = 0) :
    roundHalfEven t = f := by
  have hf : ⌊t⌋ = f := Int.floor_eq_iff.2 ⟨by linarith, by linarith⟩
  unfold roundHalfEven
  rw [hf, if_neg (by linarith), if_neg (by linarith), if_pos he]

theorem roundHalfEven_tie_odd (t : ℚ) (f : Int) (h : t = (f : ℚ) + 1 / 2) (ho : f % 2 = 1) :
    roundHalfEven t = f + 1 := by
  have hf : ⌊t⌋ = f := Int.floor_eq_iff.2 ⟨by linarith, by linarith⟩
  unfold roundHalfEven
  rw [hf, if_neg (by linarith), if_neg (by linarith), if_neg (by omega)]

/-- Evaluation of `roundToDouble` at a positive value whose exponent is `e`. -/
theorem roundToDouble_eq_of (q : ℚ) (e m : Int) (hq : 0 < q) (h1 : (2 : ℚ) ^ e ≤ q)
    (h2 : q < (2 : ℚ) ^ (e + 1)) (hm : roundHalfEven (q / (2 : ℚ) ^ (e - 52)) = m) :
    roundToDouble q = (m : ℚ) * (2 : ℚ) ^ (e - 52) := by
  have hlog : Int.log 2 |q| = e := by
    rw [abs_of_pos hq]
    apply le_antisymm
    · have := (Int.lt_zpow_iff_log_lt (b := 2) (by norm_num) hq (x := e + 1)).1
        (by exact_mod_cast h2)
      omega
    · exact (Int.zpow_le_iff_le_log (b := 2) (by norm_num) hq).1 (by exact_mod_cast h1)
  unfold roundToDouble
  rw [if_neg (ne_of_gt hq), hlog, hm]

/-! ## getCenterOfMass -/

theorem mem_forRange (lo hi v : Int) : v ∈ forRange lo hi ↔ lo ≤ v ∧ v ≤ hi := by
  unfold forRange
  simp only [List.mem_map, List.mem_range]
  constructor
  · rintro ⟨k, hk, rfl⟩
    omega
  · rintro ⟨h1, h2⟩
    exact ⟨(v - lo).toNat, by omega, by omega⟩

theorem sum_map_range (g : Nat → ℚ) (n : Nat) :
    ((List.range n).map g).sum = ∑ k ∈ Finset.range n, g k := by
  induction n with
  | zero => simp
  | succ n ih =>
    rw [List.range_succ, List.map_append, List.sum_append, ih, Finset.sum_range_succ]
    simp

theorem sum_forRange (f : Int → ℚ) (lo hi : Int) :
    ((forRange lo hi).map f).sum = ∑ v ∈ Finset.Icc lo hi, f v := by
  unfold forRange
  rw [List.map_map, sum_map_range, Int.Icc_eq_finset_map, Finset.sum_map]
  rfl

theorem sum_grid (f : Int → Int → ℚ) (ys xs : List Int) :
    ((ys.flatMap (fun y => xs.map (fun x => (x, y)))).map (fun p => f p.1 p.2)).sum =
      (ys.map (fun y => (xs.map (fun x => f x y)).sum)).sum := by
  induction ys with
  | nil => rfl
  | cons y ys ih =>
    rw [List.flatMap_cons, List.map_append, List.sum_append, ih, List.map_cons, List.sum_cons,
      List.map_map]
    rfl

theorem sum_rect (f : Int → Int → ℚ) (bbox : BBox) :
    (((forRange bbox.minY bbox.maxY).flatMap
      (fun y => (forRange bbox.minX bbox.maxX).map (fun x => (x, y)))).map
        (fun p => f p.1 p.2)).sum =
      ∑ y ∈ Finset.Icc bbox.minY bbox.maxY, ∑ x ∈ Finset.Icc bbox.minX bbox.maxX, f x y := by
  rw [sum_grid, sum_forRange]
  exact Finset.sum_congr rfl (fun y _ => sum_forRange (fun x => f x y) _ _)

theorem avgAt_le (imageData : List Nat) (i : Int) (avg : ℚ)
    (hchan : ∀ v ∈ imageData, v ≤ 255) (h : avgAt imageData i = some avg) : avg ≤ 255 := by
  have key : ∀ j v, readAt imageData j = some v → (v : ℚ) ≤ 255 := by
    intro j v hv
    unfold readAt at hv
    split at hv
    · cases hv
    · have hm := List.getElem?_mem hv
      exact_mod_cast hchan v hm
  unfold avgAt at h
  split at h
  · rename_i r g b hr hg hb
    have h1 := key _ _ hr
    have h2 := key _ _ hg
    have h3 := key _ _ hb
    cases h
    linarith
  · cases h

theorem avgAt_nonneg (imageData : List Nat) (i : Int) (avg : ℚ)
    (h : avgAt imageData i = some avg) : 0 ≤ avg := by
  unfold avgAt at h
  split at h
  · cases h
    positivity
  · cases h

theorem pixelMass_nonneg (imageData : List Nat) (w x y : Int)
    (hchan : ∀ v ∈ imageData, v ≤ 255) : 0 ≤ pixelMass imageData w x y := by
  unfold pixelMass
  cases hm : avgAt imageData (pixelIndex w x y) with
  | none => exact le_refl _
  | some avg =>
    have := avgAt_le imageData _ avg hchan hm
    simp only
    linarith

theorem pixelMass_le (imageData : List Nat) (w x y : Int) :
    pixelMass imageData w x y ≤ 255 := by
  unfold pixelMass
  cases hm : avgAt imageData (pixelIndex w x y) with
  | none => norm_num
  | some avg =>
    have := avgAt_nonneg imageData _ avg hm
    simp only
    linarith

theorem pixelMass_of_avg (imageData : List Nat) (w x y : Int) (avg : ℚ)
    (h : avgAt imageData (pixelIndex w x y) = some avg) :
    pixelMass imageData w x y = 255 - avg := by
  unfold pixelMass
  rw [h]

theorem sum_reflect (lo hi : Int) (g : Int → ℚ)
    (hsym : ∀ v, lo ≤ v → v ≤ hi → g v = g (lo + hi - v)) :
    2 * ∑ v ∈ Finset.Icc lo hi, (v : ℚ) * g v =
      ((lo : ℚ) + (hi : ℚ)) * ∑ v ∈ Finset.Icc lo hi, g v := by
  have e : ∑ v ∈ Finset.Icc lo hi, (v : ℚ) * g v =
      ∑ v ∈ Finset.Icc lo hi, (((lo + hi - v : Int) : ℚ)) * g v := by
    apply Finset.sum_nbij' (fun v => lo + hi - v) (fun v => lo + hi - v)
    · intro a ha
      simp only [Finset.mem_Icc] at ha ⊢
      omega
    · intro a ha
      simp only [Finset.mem_Icc] at ha ⊢
      omega
    · intro a _
      show lo + hi - (lo + hi - a) = a
      omega
    · intro a _
      show lo + hi - (lo + hi - a) = a
      omega
    · intro a ha
      rw [Finset.mem_Icc] at ha
      have h1 : lo + hi - (lo + hi - a) = a := by omega
      show (a : ℚ) * g a = ((lo + hi - (lo + hi - a) : Int) : ℚ) * g (lo + hi - a)
      rw [h1, ← hsym a ha.1 ha.2]
  have e2 : 2 * ∑ v ∈ Finset.Icc lo hi, (v : ℚ) * g v =
      ∑ v ∈ Finset.Icc lo hi, (v : ℚ) * g v +
        ∑ v ∈ Finset.Icc lo hi, (((lo + hi - v : Int) : ℚ)) * g v := by
    rw [← e, two_mul]
  rw [e2, ← Finset.sum_add_distrib, Finset.mul_sum]
  apply Finset.sum_congr rfl
  intro v _
  push_cast
  ring

/-! ### The sums of the specification, in exact arithmetic -/

/-- The two moments lie between the total mass times the least and the greatest coordinate. -/
theorem specMoment_bounds (imageData : List Nat) (w : Int) (bbox : BBox)
    (hchan : ∀ v ∈ imageData, v ≤ 255) :
    (bbox.minX : ℚ) * specTotalMass imageData w bbox ≤ specMomentX imageData w bbox ∧
    specMomentX imageData w bbox ≤ (bbox.maxX : ℚ) * specTotalMass imageData w bbox ∧
    (bbox.minY : ℚ) * specTotalMass imageData w bbox ≤ specMomentY imageData w bbox ∧
    specMomentY imageData w bbox ≤ (bbox.maxY : ℚ) * specTotalMass imageData w bbox := by
  have hnn : ∀ x y, 0 ≤ pixelMass imageData w x y :=
    fun x y => pixelMass_nonneg imageData w x y hchan
  refine ⟨?_, ?_, ?_, ?_⟩
  · unfold specTotalMass specMomentX
    rw [Finset.mul_sum]
    apply Finset.sum_le_sum
    intro y _
    rw [Finset.mul_sum]
    apply Finset.sum_le_sum
    intro x hxm
    rw [Finset.mem_Icc] at hxm
    exact mul_le_mul_of_nonneg_right (by exact_mod_cast hxm.1) (hnn x y)
  · unfold specTotalMass specMomentX
    rw [Finset.mul_sum]
    apply Finset.sum_le_sum
    intro y _
    rw [Finset.mul_sum]
    apply Finset.sum_le_sum
    intro x hxm
    rw [Finset.mem_Icc] at hxm
    exact mul_le_mul_of_nonneg_right (by exact_mod_cast hxm.2) (hnn x y)
  · unfold specTotalMass specMomentY
    rw [Finset.mul_sum]
    apply Finset.sum_le_sum
    intro y hym
    rw [Finset.mem_Icc] at hym
    rw [Finset.mul_sum]
    apply Finset.sum_le_sum
    intro x _
    exact mul_le_mul_of_nonneg_right (by exact_mod_cast hym.1) (hnn x y)
  · unfold specTotalMass specMomentY
    rw [Finset.mul_sum]
    apply Finset.sum_le_sum
    intro y hym
    rw [Finset.mem_Icc] at hym
    rw [Finset.mul_sum]
    apply Finset.sum_le_sum
    intro x _
    exact mul_le_mul_of_nonneg_right (by exact_mod_cast hym.2) (hnn x y)

/-- With masses symmetric under both reflections, twice a moment is the total mass times the
sum of the two ends. -/
theorem specMoment_symmetric (imageData : List Nat) (w : Int) (bbox : BBox)
    (hsymX : ∀ x y, bbox.minX ≤ x → x ≤ bbox.maxX → bbox.minY ≤ y → y ≤ bbox.maxY →
      pixelMass imageData w x y = pixelMass imageData w (bbox.minX + bbox.maxX - x) y)
    (hsymY : ∀ x y, bbox.minX ≤ x → x ≤ bbox.maxX → bbox.minY ≤ y → y ≤ bbox.maxY →
      pixelMass imageData w x y = pixelMass imageData w x (bbox.minY + bbox.maxY - y)) :
    2 * specMomentX imageData w bbox =
      ((bbox.minX : ℚ) + (bbox.maxX : ℚ)) * specTotalMass imageData w bbox ∧
    2 * specMomentY imageData w bbox =
      ((bbox.minY : ℚ) + (bbox.maxY : ℚ)) * specTotalMass imageData w bbox := by
  constructor
  · unfold specMomentX specTotalMass
    rw [Finset.mul_sum, Finset.mul_sum]
    apply Finset.sum_congr rfl
    intro y hym
    rw [Finset.mem_Icc] at hym
    exact sum_reflect bbox.minX bbox.maxX (fun x => pixelMass imageData w x y)
      (fun x h1 h2 => hsymX x y h1 h2 hym.1 hym.2)
  · have e : specMomentY imageData w bbox = ∑ y ∈ Finset.Icc bbox.minY bbox.maxY,
        (y : ℚ) * ∑ x ∈ Finset.Icc bbox.minX bbox.maxX, pixelMass imageData w x y := by
      unfold specMomentY
      exact Finset.sum_congr rfl (fun y _ => (Finset.mul_sum _ _ _).symm)
    rw [e]
    exact sum_reflect bbox.minY bbox.maxY
      (fun y => ∑ x ∈ Finset.Icc bbox.minX bbox.maxX, pixelMass imageData w x y)
      (fun y h1 h2 => Finset.sum_congr rfl (fun x hxm =>
        hsymY x y (Finset.mem_Icc.1 hxm).1 (Finset.mem_Icc.1 hxm).2 h1 h2))

/-- The total mass of a rectangle inside a buffer of `w` by `h` pixels is at most
`255 * w * h`. -/
theorem specTotalMass_le (imageData : List Nat) (w h : Nat) (bbox : BBox)
    (hx0 : 0 ≤ bbox.minX) (hx1 : bbox.maxX < (w : Int))
    (hy0 : 0 ≤ bbox.minY) (hy1 : bbox.maxY < (h : Int)) :
    specTotalMass imageData w bbox ≤ 255 * ((w : ℚ) * (h : ℚ)) := by
  unfold specTotalMass
  have hcx : ((Finset.Icc bbox.minX bbox.maxX).card : ℚ) ≤ (w : ℚ) := by
    rw [Int.card_Icc]
    have : (bbox.maxX + 1 - bbox.minX).toNat ≤ w := by omega
    exact_mod_cast this
  have hcy : ((Finset.Icc bbox.minY bbox.maxY).card : ℚ) ≤ (h : ℚ) := by
    rw [Int.card_Icc]
    have : (bbox.maxY + 1 - bbox.minY).toNat ≤ h := by omega
    exact_mod_cast this
  have inner : ∀ y ∈ Finset.Icc bbox.minY bbox.maxY,
      ∑ x ∈ Finset.Icc bbox.minX bbox.maxX, pixelMass imageData w x y ≤ 255 * (w : ℚ) := by
    intro y _
    calc ∑ x ∈ Finset.Icc bbox.minX bbox.maxX, pixelMass imageData w x y
        ≤ ∑ _x ∈ Finset.Icc bbox.minX bbox.maxX, (255 : ℚ) :=
          Finset.sum_le_sum (fun x _ => pixelMass_le imageData w x y)
      _ = ((Finset.Icc bbox.minX bbox.maxX).card : ℚ) * 255 := by
          rw [Finset.sum_const, nsmul_eq_mul]
      _ ≤ 255 * (w : ℚ) := by nlinarith
  calc ∑ y ∈ Finset.Icc bbox.minY bbox.maxY,
        ∑ x ∈ Finset.Icc bbox.minX bbox.maxX, pixelMass imageData w x y
      ≤ ∑ _y ∈ Finset.Icc bbox.minY bbox.maxY, 255 * (w : ℚ) := Finset.sum_le_sum inner
    _ = ((Finset.Icc bbox.minY bbox.maxY).card : ℚ) * (255 * (w : ℚ)) := by
        rw [Finset.sum_const, nsmul_eq_mul]
    _ ≤ 255 * ((w : ℚ) * (h : ℚ)) := by
        have hw0 : (0 : ℚ) ≤ (w : ℚ) := Nat.cast_nonneg w
        nlinarith

/-! ### A rectangle without mass -/

theorem centerOfMassStep_zero (imageData : List Nat) (w x y : Int)
    (h : avgAt imageData (pixelIndex w x y) = some 255) :
    centerOfMassStep imageData w (some (0, 0, 0)) x y = some (0, 0, 0) := by
  have e255 : roundToDouble (255 : ℚ) = 255 := by
    have := roundToDouble_natCast 255 (by norm_num)
    simpa using this
  simp only [centerOfMassStep, h, e255, sub_self, roundToDouble_zero, mul_zero, add_zero]

theorem centerOfMass_fold_zero (imageData : List Nat) (w : Int) (L : List (Int × Int))
    (hwhite : ∀ p ∈ L, avgAt imageData (pixelIndex w p.1 p.2) = some 255) :
    L.foldl (fun acc p => centerOfMassStep imageData w acc p.1 p.2) (some (0, 0, 0)) =
      some (0, 0, 0) := by
  induction L with
  | nil => rfl
  | cons q L ih =>
    rw [List.foldl_cons, centerOfMassStep_zero imageData w q.1 q.2
      (hwhite q (List.mem_cons_self _ _))]
    exact ih (fun p hp => hwhite p (List.mem_cons_of_mem _ hp))

theorem centerOfMassSums_zero_mass (imageData : List Nat) (w : Int) (bbox : BBox)
    (hwhite : ∀ x y, bbox.minX ≤ x → x ≤ bbox.maxX → bbox.minY ≤ y → y ≤ bbox.maxY →
      avgAt imageData (pixelIndex w x y) = some 255) :
    centerOfMassSums imageData w bbox = some (0, 0, 0) := by
  unfold centerOfMassSums
  rw [foldl_nested (fun acc x y => centerOfMassStep imageData w acc x y)]
  apply centerOfMass_fold_zero
  intro p hp
  rw [mem_grid, mem_forRange, mem_forRange] at hp
  exact hwhite p.1 p.2 hp.1.1 hp.1.2 hp.2.1 hp.2.2

theorem specMoment_zero_mass (imageData : List Nat) (w : Int) (bbox : BBox)
    (hwhite : ∀ x y, bbox.minX ≤ x → x ≤ bbox.maxX → bbox.minY ≤ y → y ≤ bbox.maxY →
      avgAt imageData (pixelIndex w x y) = some 255) :
    specMomentX imageData w bbox = 0 ∧ specMomentY imageData w bbox = 0 := by
  have hz : ∀ x y, bbox.minX ≤ x → x ≤ bbox.maxX → bbox.minY ≤ y → y ≤ bbox.maxY →
      pixelMass imageData w x y = 0 := by
    intro x y h1 h2 h3 h4
    rw [pixelMass_of_avg imageData w x y 255 (hwhite x y h1 h2 h3 h4)]
    norm_num
  constructor
  · unfold specMomentX
    apply Finset.sum_eq_zero
    intro y hym
    apply Finset.sum_eq_zero
    intro x hxm
    rw [Finset.mem_Icc] at hym hxm
    rw [hz x y hxm.1 hxm.2 hym.1 hym.2, mul_zero]
  · unfold specMomentY
    apply Finset.sum_eq_zero
    intro y hym
    apply Finset.sum_eq_zero
    intro x hxm
    rw [Finset.mem_Icc] at hym hxm
    rw [hz x y hxm.1 hxm.2 hym.1 hym.2, mul_zero]

/-- Fallback of `getCenterOfMass`: when every pixel of the rectangle has mean 255, that is
mass zero, the result is `(width / 2, height / 2)`, whatever the rectangle. -/
theorem getCenterOfMass_zero_mass (imageData : List Nat) (w h : Int) (bbox : BBox)
    (hwhite : ∀ x y, bbox.minX ≤ x → x ≤ bbox.maxX → bbox.minY ≤ y → y ≤ bbox.maxY →
      avgAt imageData (pixelIndex w x y) = some 255) :
    getCenterOfMass imageData w h bbox = some { x := (w : ℚ) / 2, y := (h : ℚ) / 2 } := by
  unfold getCenterOfMass
  rw [centerOfMassSums_zero_mass imageData w bbox hwhite]
  simp

/-! ### Masses that are whole numbers -/

theorem roundToDouble_whole (q : ℚ) (hq : ∃ n : Nat, q = (n : ℚ))
    (hb : q ≤ 9007199254740992) : roundToDouble q = q := by
  obtain ⟨n, rfl⟩ := hq
  apply roundToDouble_natCast
  have : (n : ℚ) ≤ ((9007199254740992 : Nat) : ℚ) := by
    simpa using hb
  have h2 : n ≤ 9007199254740992 := by exact_mod_cast this
  norm_num
  exact h2

theorem whole_add {a b : ℚ} (ha : ∃ n : Nat, a = (n : ℚ)) (hb : ∃ n : Nat, b = (n : ℚ)) :
    ∃ n : Nat, a + b = (n : ℚ) := by
  obtain ⟨m, rfl⟩ := ha
  obtain ⟨n, rfl⟩ := hb
  exact ⟨m + n, by push_cast; rfl⟩

theorem whole_mul {a b : ℚ} (ha : ∃ n : Nat, a = (n : ℚ)) (hb : ∃ n : Nat, b = (n : ℚ)) :
    ∃ n : Nat, a * b = (n : ℚ) := by
  obtain ⟨m, rfl⟩ := ha
  obtain ⟨n, rfl⟩ := hb
  exact ⟨m * n, by push_cast; rfl⟩

theorem whole_nonneg {a : ℚ} (ha : ∃ n : Nat, a = (n : ℚ)) : 0 ≤ a := by
  obtain ⟨m, rfl⟩ := ha
  exact Nat.cast_nonneg m

theorem whole_coordinate (x : Int) (hx : 0 ≤ x) : ∃ n : Nat, (x : ℚ) = (n : ℚ) := by
  obtain ⟨n, rfl⟩ := Int.eq_ofNat_of_zero_le hx
  exact ⟨n, by push_cast; rfl⟩

theorem whole_mass (imageData : List Nat) (w x y : Int) (k : Nat) (hk : k ≤ 255)
    (h : avgAt imageData (pixelIndex w x y) = some (k : ℚ)) :
    ∃ n : Nat, pixelMass imageData w x y = (n : ℚ) := by
  refine ⟨255 - k, ?_⟩
  rw [pixelMass_of_avg imageData w x y k h, Nat.cast_sub hk]
  norm_num

/-- One iteration on a pixel whose mean is a whole number, from sums that are whole numbers:
no operation rounds as long as the sums stay within `2 ^ 53`. -/
theorem centerOfMassStep_whole (imageData : List Nat) (w : Int) (t cx cy : ℚ) (x y : Int)
    (k : Nat) (hk : k ≤ 255) (hav : avgAt imageData (pixelIndex w x y) = some (k : ℚ))
    (hx : 0 ≤ x) (hy : 0 ≤ y)
    (ht : ∃ n : Nat, t = (n : ℚ)) (hcx : ∃ n : Nat, cx = (n : ℚ))
    (hcy : ∃ n : Nat, cy = (n : ℚ))
    (b1 : t + pixelMass imageData w x y ≤ 9007199254740992)
    (b2 : cx + (x : ℚ) * pixelMass imageData w x y ≤ 9007199254740992)
    (b3 : cy + (y : ℚ) * pixelMass imageData w x y ≤ 9007199254740992) :
    centerOfMassStep imageData w (some (t, cx, cy)) x y =
      some (t + pixelMass imageData w x y, cx + (x : ℚ) * pixelMass imageData w x y,
        cy + (y : ℚ) * pixelMass imageData w x y) := by
  have hm := whole_mass imageData w x y k hk hav
  have hmv := pixelMass_of_avg imageData w x y k hav
  have hm255 : pixelMass imageData w x y ≤ 255 := pixelMass_le imageData w x y
  have hxm := whole_mul (whole_coordinate x hx) hm
  have hym := whole_mul (whole_coordinate y hy) hm
  have e1 : roundToDouble (k : ℚ) = (k : ℚ) :=
    roundToDouble_natCast k (by omega)
  have e2 : roundToDouble (255 - (k : ℚ)) = pixelMass imageData w x y := by
    rw [← hmv]
    exact roundToDouble_whole _ hm (by linarith)
  have e3 : roundToDouble ((x : ℚ) * pixelMass imageData w x y) =
      (x : ℚ) * pixelMass imageData w x y :=
    roundToDouble_whole _ hxm (by linarith [whole_nonneg hcx])
  have e4 : roundToDouble ((y : ℚ) * pixelMass imageData w x y) =
      (y : ℚ) * pixelMass imageData w x y :=
    roundToDouble_whole _ hym (by linarith [whole_nonneg hcy])
  have e5 := roundToDouble_whole _ (whole_add ht hm) b1
  have e6 := roundToDouble_whole _ (whole_add hcx hxm) b2
  have e7 := roundToDouble_whole _ (whole_add hcy hym) b3
  simp only [centerOfMassStep, hav, e1, e2, e3, e4, e5, e6, e7]

theorem centerOfMass_fold_whole (imageData : List Nat) (w : Int) (L : List (Int × Int))
    (t cx cy : ℚ)
    (hL : ∀ p ∈ L, 0 ≤ p.1 ∧ 0 ≤ p.2 ∧
      ∃ k : Nat, k ≤ 255 ∧ avgAt imageData (pixelIndex w p.1 p.2) = some (k : ℚ))
    (ht : ∃ n : Nat, t = (n : ℚ)) (hcx : ∃ n : Nat, cx = (n : ℚ))
    (hcy : ∃ n : Nat, cy = (n : ℚ))
    (b1 : t + (L.map (fun p => pixelMass imageData w p.1 p.2)).sum ≤ 9007199254740992)
    (b2 : cx + (L.map (fun p => (p.1 : ℚ) * pixelMass imageData w p.1 p.2)).sum ≤
      9007199254740992)
    (b3 : cy + (L.map (fun p => (p.2 : ℚ) * pixelMass imageData w p.1 p.2)).sum ≤
      9007199254740992) :
    L.foldl (fun acc p => centerOfMassStep imageData w acc p.1 p.2) (some (t, cx, cy)) =
      some (t + (L.map (fun p => pixelMass imageData w p.1 p.2)).sum,
        cx + (L.map (fun p => (p.1 : ℚ) * pixelMass imageData w p.1 p.2)).sum,
        cy + (L.map (fun p => (p.2 : ℚ) * pixelMass imageData w p.1 p.2)).sum) := by
  induction L generalizing t cx cy with
  | nil => simp
  | cons q L ih =>
    obtain ⟨hq1, hq2, k, hk, hav⟩ := hL q (List.mem_cons_self _ _)
    have hL' : ∀ p ∈ L, 0 ≤ p.1 ∧ 0 ≤ p.2 ∧
        ∃ k : Nat, k ≤ 255 ∧ avgAt imageData (pixelIndex w p.1 p.2) = some (k : ℚ) :=
      fun p hp => hL p (List.mem_cons_of_mem _ hp)
    have hm := whole_mass imageData w q.1 q.2 k hk hav
    have hxm := whole_mul (whole_coordinate q.1 hq1) hm
    have hym := whole_mul (whole_coordinate q.2 hq2) hm
    have n1 : 0 ≤ (L.map (fun p => pixelMass imageData w p.1 p.2)).sum := by
      apply List.sum_nonneg
      intro v hv
      obtain ⟨p, hp, rfl⟩ := List.mem_map.1 hv
      obtain ⟨-, -, k', hk', hav'⟩ := hL' p hp
      exact whole_nonneg (whole_mass imageData w p.1 p.2 k' hk' hav')
    have n2 : 0 ≤ (L.map (fun p => (p.1 : ℚ) * pixelMass imageData w p.1 p.2)).sum := by
      apply List.sum_nonneg
      intro v hv
      obtain ⟨p, hp, rfl⟩ := List.mem_map.1 hv
      obtain ⟨hp1, -, k', hk', hav'⟩ := hL' p hp
      exact whole_nonneg (whole_mul (whole_coordinate p.1 hp1)
        (whole_mass imageData w p.1 p.2 k' hk' hav'))
    have n3 : 0 ≤ (L.map (fun p => (p.2 : ℚ) * pixelMass imageData w p.1 p.2)).sum := by
      apply List.sum_nonneg
      intro v hv
      obtain ⟨p, hp, rfl⟩ := List.mem_map.1 hv
      obtain ⟨-, hp2, k', hk', hav'⟩ := hL' p hp
      exact whole_nonneg (whole_mul (whole_coordinate p.2 hp2)
        (whole_mass imageData w p.1 p.2 k' hk' hav'))
    simp only [List.map_cons, List.sum_cons] at b1 b2 b3
    rw [List.foldl_cons, centerOfMassStep_whole imageData w t cx cy q.1 q.2 k hk hav hq1 hq2
      ht hcx hcy (by linarith) (by linarith) (by linarith),
      ih _ _ _ hL' (whole_add ht hm) (whole_add hcx hxm) (whole_add hcy hym)
        (by linarith) (by linarith) (by linarith)]
    simp only [List.map_cons, List.sum_cons, add_assoc]

/-- On a rectangle inside a buffer small enough for the sums to stay within `2 ^ 53`, whose
pixels all have a whole-number mean, the loops of `getCenterOfMass` compute the three sums of
the specification without rounding. -/
theorem centerOfMassSums_whole (imageData : List Nat) (w h : Nat) (bbox : BBox)
    (hchan : ∀ v ∈ imageData, v ≤ 255)
    (hx0 : 0 ≤ bbox.minX) (hx1 : bbox.maxX < (w : Int))
    (hy0 : 0 ≤ bbox.minY) (hy1 : bbox.maxY < (h : Int))
    (hwhole : ∀ x y, bbox.minX ≤ x → x ≤ bbox.maxX → bbox.minY ≤ y → y ≤ bbox.maxY →
      ∃ k : Nat, avgAt imageData (pixelIndex w x y) = some (k : ℚ))
    (hsize : 255 * (w * h) * max w h ≤ 2 ^ 53) :
    centerOfMassSums imageData w bbox =
      some (specTotalMass imageData w bbox, specMomentX imageData w bbox,
        specMomentY imageData w bbox) := by
  have hT := specTotalMass_le imageData w h bbox hx0 hx1 hy0 hy1
  obtain ⟨-, bX, -, bY⟩ := specMoment_bounds imageData w bbox hchan
  have hT0 : 0 ≤ specTotalMass imageData w bbox :=
    Finset.sum_nonneg (fun y _ => Finset.sum_nonneg
      (fun x _ => pixelMass_nonneg imageData w x y hchan))
  have hwq : (0 : ℚ) ≤ (w : ℚ) := Nat.cast_nonneg w
  have hhq : (0 : ℚ) ≤ (h : ℚ) := Nat.cast_nonneg h
  have hmx : (bbox.maxX : ℚ) ≤ (w : ℚ) := by exact_mod_cast hx1.le
  have hmy : (bbox.maxY : ℚ) ≤ (h : ℚ) := by exact_mod_cast hy1.le
  have s1 : 255 * (w * h) * w ≤ 2 ^ 53 :=
    le_trans (Nat.mul_le_mul_left _ (le_max_left w h)) hsize
  have s2 : 255 * (w * h) * h ≤ 2 ^ 53 :=
    le_trans (Nat.mul_le_mul_left _ (le_max_right w h)) hsize
  have s1q : 255 * ((w : ℚ) * (h : ℚ)) * (w : ℚ) ≤ 9007199254740992 := by
    have : ((255 * (w * h) * w : Nat) : ℚ) ≤ ((2 ^ 53 : Nat) : ℚ) := by exact_mod_cast s1
    push_cast at this
    linarith
  have s2q : 255 * ((w : ℚ) * (h : ℚ)) * (h : ℚ) ≤ 9007199254740992 := by
    have : ((255 * (w * h) * h : Nat) : ℚ) ≤ ((2 ^ 53 : Nat) : ℚ) := by exact_mod_cast s2
    push_cast at this
    linarith
  have cX : specMomentX imageData w bbox ≤ 9007199254740992 := by
    have : (bbox.maxX : ℚ) * specTotalMass imageData w bbox ≤
        (w : ℚ) * (255 * ((w : ℚ) * (h : ℚ))) := by
      apply mul_le_mul hmx hT hT0 hwq
    linarith
  have cY : specMomentY imageData w bbox ≤ 9007199254740992 := by
    have : (bbox.maxY : ℚ) * specTotalMass imageData w bbox ≤
        (h : ℚ) * (255 * ((w : ℚ) * (h : ℚ))) := by
      apply mul_le_mul hmy hT hT0 hhq
    linarith
  have cT : specTotalMass imageData w bbox ≤ 9007199254740992 := by
    rcases Nat.eq_zero_or_pos w with h0 | h0
    · have hw0 : (w : ℚ) = 0 := by exact_mod_cast h0
      rw [hw0] at hT
      linarith
    · have hw1 : (1 : ℚ) ≤ (w : ℚ) := by exact_mod_cast h0
      have : 255 * ((w : ℚ) * (h : ℚ)) ≤ 255 * ((w : ℚ) * (h : ℚ)) * (w : ℚ) := by
        have hwh : (0 : ℚ) ≤ 255 * ((w : ℚ) * (h : ℚ)) := by positivity
        nlinarith
      linarith
  unfold centerOfMassSums
  rw [foldl_nested (fun acc x y => centerOfMassStep imageData w acc x y),
    centerOfMass_fold_whole imageData w _ 0 0 0 ?_ ⟨0, by simp⟩ ⟨0, by simp⟩ ⟨0, by simp⟩]
  · rw [sum_rect (fun x y => pixelMass imageData w x y),
      sum_rect (fun x y => (x : ℚ) * pixelMass imageData w x y),
      sum_rect (fun x y => (y : ℚ) * pixelMass imageData w x y)]
    simp only [zero_add, specTotalMass, specMomentX, specMomentY]
  · rw [sum_rect (fun x y => pixelMass imageData w x y), zero_add]
    exact cT
  · rw [sum_rect (fun x y => (x : ℚ) * pixelMass imageData w x y), zero_add]
    exact cX
  · rw [sum_rect (fun x y => (y : ℚ) * pixelMass imageData w x y), zero_add]
    exact cY
  · intro p hp
    rw [mem_grid, mem_forRange, mem_forRange] at hp
    obtain ⟨k, hk⟩ := hwhole p.1 p.2 hp.1.1 hp.1.2 hp.2.1 hp.2.2
    have hk255 : (k : ℚ) ≤ 255 := avgAt_le imageData _ _ hchan hk
    exact ⟨le_trans hx0 hp.1.1, le_trans hy0 hp.2.1, k, by exact_mod_cast hk255, hk⟩

theorem getCenterOfMass_of_whole (imageData : List Nat) (w h : Nat) (bbox : BBox)
    (hchan : ∀ v ∈ imageData, v ≤ 255)
    (hx0 : 0 ≤ bbox.minX) (hx1 : bbox.maxX < (w : Int))
    (hy0 : 0 ≤ bbox.minY) (hy1 : bbox.maxY < (h : Int))
    (hwhole : ∀ x y, bbox.minX ≤ x → x ≤ bbox.maxX → bbox.minY ≤ y → y ≤ bbox.maxY →
      ∃ k : Nat, avgAt imageData (pixelIndex w x y) = some (k : ℚ))
    (hsize : 255 * (w * h) * max w h ≤ 2 ^ 53)
    (hmass : specTotalMass imageData w bbox ≠ 0) :
    getCenterOfMass imageData w h bbox =
      some { x := roundToDouble
                (specMomentX imageData w bbox / specTotalMass imageData w bbox),
             y := roundToDouble
                (specMomentY imageData w bbox / specTotalMass imageData w bbox) } := by
  unfold getCenterOfMass
  rw [centerOfMassSums_whole imageData w h bbox hchan hx0 hx1 hy0 hy1 hwhole hsize]
  simp only [hmass, if_false]

/-- A rectangle with mass is not empty, and its buffer has at least one pixel. -/
theorem nonempty_of_mass (imageData : List Nat) (w : Int) (bbox : BBox)
    (hmass : specTotalMass imageData w bbox ≠ 0) :
    bbox.minX ≤ bbox.maxX ∧ bbox.minY ≤ bbox.maxY := by
  constructor
  · by_contra hc
    apply hmass
    unfold specTotalMass
    rw [Finset.Icc_eq_empty (by omega : ¬ bbox.minX ≤ bbox.maxX)]
    simp
  · by_contra hc
    apply hmass
    unfold specTotalMass
    rw [Finset.Icc_eq_empty (by omega : ¬ bbox.minY ≤ bbox.maxY)]
    simp

theorem coordinate_small (w h : Nat) (a : Int) (ha0 : 0 ≤ a) (ha1 : a < (w : Int) + (w : Int))
    (hh : 1 ≤ h) (hsize : 255 * (w * h) * max w h ≤ 2 ^ 53) : |a| ≤ 2 ^ 53 := by
  rw [abs_of_nonneg ha0]
  have h1 : 1 * w ≤ w * h := by
    rw [Nat.mul_comm 1 w]
    exact Nat.mul_le_mul_left w hh
  have h2 : w * h ≤ w * h * max w h ∨ max w h = 0 := by
    rcases Nat.eq_zero_or_pos (max w h) with h0 | h0
    · exact Or.inr h0
    · exact Or.inl (Nat.le_mul_of_pos_right _ h0)
  rcases h2 with h2 | h2
  · have h3 : 255 * (w * h * max w h) ≤ 2 ^ 53 := by
      rw [← Nat.mul_assoc]
      exact hsize
    have h4 : (2 : Nat) ^ 53 = 9007199254740992 := by norm_num
    have h5 : ((2 : Int) ^ 53) = 9007199254740992 := by norm_num
    rw [h4] at h3
    rw [h5]
    omega
  · have : w = 0 := by
      have := le_max_left w h
      omega
    have h5 : ((2 : Int) ^ 53) = 9007199254740992 := by norm_num
    rw [h5]
    omega

/-! ### Two roundings worked out -/

theorem roundToDouble_literal (M : Int) (S : Int) (q : ℚ) (hM : |M| ≤ 2 ^ 53)
    (hq : q = (M : ℚ) * (2 : ℚ) ^ S) : roundToDouble q = q := by
  rw [hq]
  exact roundToDouble_representable M S hM

theorem edge_avg : roundToDouble (193 / 3) = 4527055875429717 / 70368744177664 := by
  rw [roundToDouble_eq_of (193 / 3) 6 4527055875429717 (by norm_num) (by norm_num)
    (by norm_num) (roundHalfEven_down _ _ (by norm_num) (by norm_num))]
  norm_num

theorem edge_mass :
    roundToDouble (13416973889874603 / 70368744177664) =
      3354243472468651 / 17592186044416 := by
  rw [roundToDouble_eq_of _ 7 6708486944937302 (by norm_num) (by norm_num)
    (by norm_num) (roundHalfEven_tie_odd _ 6708486944937301 (by norm_num) (by decide))]
  norm_num

theorem edge_total :
    roundToDouble (3354243472468651 / 17592186044416) = 3354243472468651 / 17592186044416 :=
  roundToDouble_literal 3354243472468651 (-44) _ (by norm_num) (by norm_num)

theorem edge_product : roundToDouble (10062730417405953 / 17592186044416) = 572 := by
  rw [roundToDouble_eq_of _ 9 5031365208702976 (by norm_num) (by norm_num)
    (by norm_num) (roundHalfEven_tie_even _ 5031365208702976 (by norm_num) (by decide))]
  norm_num

theorem edge_moment : roundToDouble 572 = 572 :=
  roundToDouble_literal 572 0 _ (by norm_num) (by norm_num)

theorem edge_quotient :
    roundToDouble (10062730417405952 / 3354243472468651) =
      6755399441055743 / 2251799813685248 := by
  rw [roundToDouble_eq_of _ 1 6755399441055743 (by norm_num) (by norm_num)
    (by norm_num) (roundHalfEven_down _ _ (by norm_num) (by norm_num))]
  norm_num

theorem edgeBuffer_avg : avgAt edgeBuffer (pixelIndex 4 3 0) = some (193 / 3) := by
  simp [avgAt, readAt, pixelIndex, edgeBuffer]

theorem edgeBuffer_sums :
    centerOfMassSums edgeBuffer 4 { minX := 3, minY := 0, maxX := 3, maxY := 0 } =
      some (3354243472468651 / 17592186044416, 572, 0) := by
  have r1 : forRange 0 0 = [0] := by decide
  have r2 : forRange 3 3 = [3] := by decide
  unfold centerOfMassSums
  simp only [r1, r2, List.foldl_cons, List.foldl_nil, centerOfMassStep, edgeBuffer_avg]
  norm_num [edge_avg, edge_mass, edge_total, edge_product, edge_moment, roundToDouble_zero]

theorem edgeBuffer_sums_exact :
    specTotalMass edgeBuffer 4 { minX := 3, minY := 0, maxX := 3, maxY := 0 } = 572 / 3 ∧
    specMomentX edgeBuffer 4 { minX := 3, minY := 0, maxX := 3, maxY := 0 } = 572 := by
  have hm : pixelMass edgeBuffer 4 3 0 = 572 / 3 := by
    rw [pixelMass_of_avg edgeBuffer 4 3 0 _ edgeBuffer_avg]
    norm_num
  constructor
  · simp only [specTotalMass, Finset.Icc_self, Finset.sum_singleton, hm]
  · simp only [specMomentX, Finset.Icc_self, Finset.sum_singleton, hm]
    norm_num

theorem mirror_avg : roundToDouble (2 / 3) = 6004799503160661 / 9007199254740992 := by
  rw [roundToDouble_eq_of (2 / 3) (-1) 6004799503160661 (by norm_num) (by norm_num)
    (by norm_num) (roundHalfEven_down _ _ (by norm_num) (by norm_num))]
  norm_num

theorem mirror_mass :
    roundToDouble (2290831010455792299 / 9007199254740992) =
      8948558634592939 / 35184372088832 := by
  rw [roundToDouble_eq_of _ 7 8948558634592939 (by norm_num) (by norm_num)
    (by norm_num) (roundHalfEven_up _ 8948558634592938 (by norm_num) (by norm_num))]
  norm_num

theorem mirror_total1 :
    roundToDouble (8948558634592939 / 35184372088832) = 8948558634592939 / 35184372088832 :=
  roundToDouble_literal 8948558634592939 (-45) _ (by norm_num) (by norm_num)

theorem mirror_total2 :
    roundToDouble (9054111750859435 / 35184372088832) = 2263527937714859 / 8796093022208 := by
  rw [roundToDouble_eq_of _ 8 4527055875429718 (by norm_num) (by norm_num)
    (by norm_num) (roundHalfEven_tie_odd _ 4527055875429717 (by norm_num) (by decide))]
  norm_num

theorem mirror_total3 :
    roundToDouble (18002670385452375 / 35184372088832) = 2250333798181547 / 4398046511104 := by
  rw [roundToDouble_eq_of _ 8 9001335192726188 (by norm_num) (by norm_num)
    (by norm_num) (roundHalfEven_tie_odd _ 9001335192726187 (by norm_num) (by decide))]
  norm_num

theorem mirror_product :
    roundToDouble (8948558634592939 / 17592186044416) = 8948558634592939 / 17592186044416 :=
  roundToDouble_literal 8948558634592939 (-44) _ (by norm_num) (by norm_num)

theorem mirror_moment :
    roundToDouble (9001335192726187 / 17592186044416) = 9001335192726187 / 17592186044416 :=
  roundToDouble_literal 9001335192726187 (-44) _ (by norm_num) (by norm_num)

theorem mirror_quotient :
    roundToDouble (9001335192726187 / 9001335192726188) =
      9007199254740991 / 9007199254740992 := by
  rw [roundToDouble_eq_of _ (-1) 9007199254740991 (by norm_num) (by norm_num)
    (by norm_num) (roundHalfEven_up _ 9007199254740990 (by norm_num) (by norm_num))]
  norm_num

theorem mirror_small (n : Nat) (hn : n ≤ 255) : roundToDouble (n : ℚ) = (n : ℚ) :=
  roundToDouble_natCast n (by omega)

theorem mirrorBuffer_avg :
    avgAt mirrorBuffer (pixelIndex 3 0 0) = some (2 / 3) ∧
    avgAt mirrorBuffer (pixelIndex 3 1 0) = some 252 ∧
    avgAt mirrorBuffer (pixelIndex 3 2 0) = some (2 / 3) := by
  refine ⟨?_, ?_, ?_⟩
  · simp [avgAt, readAt, pixelIndex, mirrorBuffer]
  · simp [avgAt, readAt, pixelIndex, mirrorBuffer]
    norm_num
  · simp [avgAt, readAt, pixelIndex, mirrorBuffer]

theorem mirrorBuffer_sums :
    centerOfMassSums mirrorBuffer 3 { minX := 0, minY := 0, maxX := 2, maxY := 0 } =
      some (2250333798181547 / 4398046511104, 9001335192726187 / 17592186044416, 0) := by
  have r1 : forRange 0 0 = [0] := by decide
  have r2 : forRange 0 2 = [0, 1, 2] := by decide
  have e252 : roundToDouble 252 = 252 := by
    have := mirror_small 252 (by omega)
    simpa using this
  have e3 : roundToDouble 3 = 3 := by
    have := mirror_small 3 (by omega)
    simpa using this
  unfold centerOfMassSums
  simp only [r1, r2, List.foldl_cons, List.foldl_nil, centerOfMassStep, mirrorBuffer_avg.1,
    mirrorBuffer_avg.2.1, mirrorBuffer_avg.2.2]
  norm_num [mirror_avg, mirror_mass, mirror_total1, mirror_total2, mirror_total3,
    mirror_product, mirror_moment, roundToDouble_zero, e252, e3]

theorem mirrorBuffer_mass :
    pixelMass mirrorBuffer 3 0 0 = 763 / 3 ∧ pixelMass mirrorBuffer 3 1 0 = 3 ∧
    pixelMass mirrorBuffer 3 2 0 = 763 / 3 := by
  refine ⟨?_, ?_, ?_⟩
  · rw [pixelMass_of_avg mirrorBuffer 3 0 0 _ mirrorBuffer_avg.1]
    norm_num
  · rw [pixelMass_of_avg mirrorBuffer 3 1 0 _ mirrorBuffer_avg.2.1]
    norm_num
  · rw [pixelMass_of_avg mirrorBuffer 3 2 0 _ mirrorBuffer_avg.2.2]
    norm_num

/-! ## Claims about getCenterOfMass -/

/-- C7, as the code has it. For a buffer of `w` by `h` pixels with channel values in 0..255,
small enough that `255 * w * h * max(w, h) <= 2^53`, and a rectangle inside it (`0 <= minX`,
`maxX < w`, `0 <= minY`, `maxY < h`) whose pixels all have a whole-number mean of red, green
and blue (every grey pixel has) and whose total mass is not zero, `getCenterOfMass` returns
the doubles nearest to `sum(x * mass) / sum(mass)` and `sum(y * mass) / sum(mass)`, and that
point lies in the rectangle: `minX <= x <= maxX` and `minY <= y <= maxY`. -/
theorem getCenterOfMass_weighted (imageData : List Nat) (w h : Nat) (bbox : BBox)
    (hchan : ∀ v ∈ imageData, v ≤ 255)
    (hx0 : 0 ≤ bbox.minX) (hx1 : bbox.maxX < (w : Int))
    (hy0 : 0 ≤ bbox.minY) (hy1 : bbox.maxY < (h : Int))
    (hwhole : ∀ x y, bbox.minX ≤ x → x ≤ bbox.maxX → bbox.minY ≤ y → y ≤ bbox.maxY →
      ∃ k : Nat, avgAt imageData (pixelIndex w x y) = some (k : ℚ))
    (hsize : 255 * (w * h) * max w h ≤ 2 ^ 53)
    (hmass : specTotalMass imageData w bbox ≠ 0) :
    getCenterOfMass imageData w h bbox =
      some { x := roundToDouble
                (specMomentX imageData w bbox / specTotalMass imageData w bbox),
             y := roundToDouble
                (specMomentY imageData w bbox / specTotalMass imageData w bbox) } ∧
    (bbox.minX : ℚ) ≤
      roundToDouble (specMomentX imageData w bbox / specTotalMass imageData w bbox) ∧
    roundToDouble (specMomentX imageData w bbox / specTotalMass imageData w bbox) ≤
      (bbox.maxX : ℚ) ∧
    (bbox.minY : ℚ) ≤
      roundToDouble (specMomentY imageData w bbox / specTotalMass imageData w bbox) ∧
    roundToDouble (specMomentY imageData w bbox / specTotalMass imageData w bbox) ≤
      (bbox.maxY : ℚ) := by
  have hT0 : 0 ≤ specTotalMass imageData w bbox :=
    Finset.sum_nonneg (fun y _ => Finset.sum_nonneg
      (fun x _ => pixelMass_nonneg imageData w x y hchan))
  have hT : 0 < specTotalMass imageData w bbox := lt_of_le_of_ne hT0 (Ne.symm hmass)
  obtain ⟨b1, b2, b3, b4⟩ := specMoment_bounds imageData w bbox hchan
  obtain ⟨nx, ny⟩ := nonempty_of_mass imageData w bbox hmass
  have hw1 : 1 ≤ w := by omega
  have hh1 : 1 ≤ h := by omega
  have hsize' : 255 * (h * w) * max h w ≤ 2 ^ 53 := by
    rw [Nat.mul_comm h w, max_comm]
    exact hsize
  refine ⟨getCenterOfMass_of_whole imageData w h bbox hchan hx0 hx1 hy0 hy1 hwhole hsize hmass,
    ?_, ?_, ?_, ?_⟩
  · exact le_roundToDouble _ bbox.minX
      (coordinate_small w h _ hx0 (by omega) hh1 hsize) ((le_div_iff₀ hT).2 b1)
  · exact roundToDouble_le _ bbox.maxX
      (coordinate_small w h _ (by omega) (by omega) hh1 hsize) ((div_le_iff₀ hT).2 b2)
  · exact le_roundToDouble _ bbox.minY
      (coordinate_small h w _ hy0 (by omega) hw1 hsize') ((le_div_iff₀ hT).2 b3)
  · exact roundToDouble_le _ bbox.maxY
      (coordinate_small h w _ (by omega) (by omega) hw1 hsize') ((div_le_iff₀ hT).2 b4)

/-- C8, as the code has it. For a rectangle in which every pixel has mass zero (mean of red,
green and blue equal to 255), `getCenterOfMass` divides by nothing and returns
`(width / 2, height / 2)`, half the width and half the height it was passed. -/
theorem getCenterOfMass_fallback (imageData : List Nat) (w h : Int) (bbox : BBox)
    (hwhite : ∀ x y, bbox.minX ≤ x → x ≤ bbox.maxX → bbox.minY ≤ y → y ≤ bbox.maxY →
      avgAt imageData (pixelIndex w x y) = some 255) :
    centerOfMassSums imageData w bbox = some (0, specMomentX imageData w bbox,
      specMomentY imageData w bbox) ∧
    getCenterOfMass imageData w h bbox = some { x := (w : ℚ) / 2, y := (h : ℚ) / 2 } := by
  refine ⟨?_, getCenterOfMass_zero_mass imageData w h bbox hwhite⟩
  obtain ⟨e1, e2⟩ := specMoment_zero_mass imageData w bbox hwhite
  rw [centerOfMassSums_zero_mass imageData w bbox hwhite, e1, e2]

/-- C9, as the code has it. For a buffer of `w` by `h` pixels with channel values in 0..255,
small enough that `255 * w * h * max(w, h) <= 2^53`, and a rectangle inside it whose pixels
all have a whole-number mean of red, green and blue (every grey pixel has), whose pixel
masses are symmetric under reflection in both axes of the rectangle and whose total mass is
not zero, `getCenterOfMass` returns exactly the centre
`((minX + maxX) / 2, (minY + maxY) / 2)`. -/
theorem getCenterOfMass_symmetric (imageData : List Nat) (w h : Nat) (bbox : BBox)
    (hchan : ∀ v ∈ imageData, v ≤ 255)
    (hx0 : 0 ≤ bbox.minX) (hx1 : bbox.maxX < (w : Int))
    (hy0 : 0 ≤ bbox.minY) (hy1 : bbox.maxY < (h : Int))
    (hwhole : ∀ x y, bbox.minX ≤ x → x ≤ bbox.maxX → bbox.minY ≤ y → y ≤ bbox.maxY →
      ∃ k : Nat, avgAt imageData (pixelIndex w x y) = some (k : ℚ))
    (hsize : 255 * (w * h) * max w h ≤ 2 ^ 53)
    (hsymX : ∀ x y, bbox.minX ≤ x → x ≤ bbox.maxX → bbox.minY ≤ y → y ≤ bbox.maxY →
      pixelMass imageData w x y = pixelMass imageData w (bbox.minX + bbox.maxX - x) y)
    (hsymY : ∀ x y, bbox.minX ≤ x → x ≤ bbox.maxX → bbox.minY ≤ y → y ≤ bbox.maxY →
      pixelMass imageData w x y = pixelMass imageData w x (bbox.minY + bbox.maxY - y))
    (hmass : specTotalMass imageData w bbox ≠ 0) :
    getCenterOfMass imageData w h bbox =
      some { x := ((bbox.minX : ℚ) + (bbox.maxX : ℚ)) / 2,
             y := ((bbox.minY : ℚ) + (bbox.maxY : ℚ)) / 2 } := by
  obtain ⟨kx, ky⟩ := specMoment_symmetric imageData w bbox hsymX hsymY
  obtain ⟨nx, ny⟩ := nonempty_of_mass imageData w bbox hmass
  have hw1 : 1 ≤ w := by omega
  have hh1 : 1 ≤ h := by omega
  have hsize' : 255 * (h * w) * max h w ≤ 2 ^ 53 := by
    rw [Nat.mul_comm h w, max_comm]
    exact hsize
  have qx : specMomentX imageData w bbox / specTotalMass imageData w bbox =
      (((bbox.minX + bbox.maxX : Int)) : ℚ) / 2 := by
    push_cast
    field_simp
    linarith
  have qy : specMomentY imageData w bbox / specTotalMass imageData w bbox =
      (((bbox.minY + bbox.maxY : Int)) : ℚ) / 2 := by
    push_cast
    field_simp
    linarith
  rw [getCenterOfMass_of_whole imageData w h bbox hchan hx0 hx1 hy0 hy1 hwhole hsize hmass,
    qx, qy,
    roundToDouble_half _ (coordinate_small w h _ (by omega) (by omega) hh1 hsize),
    roundToDouble_half _ (coordinate_small h w _ (by omega) (by omega) hw1 hsize')]
  push_cast
  rfl

/-! ## The blank test buffers -/

theorem blankBuffer_avg (x y : Int) (hx0 : 0 ≤ x) (hx1 : x ≤ 1) (hy0 : 0 ≤ y) (hy1 : y ≤ 1) :
    avgAt blankBuffer (pixelIndex 2 x y) = some 255 := by
  obtain ⟨xn, rfl⟩ := Int.eq_ofNat_of_zero_le hx0
  obtain ⟨yn, rfl⟩ := Int.eq_ofNat_of_zero_le hy0
  have hxn : xn ≤ 1 := by omega
  have hyn : yn ≤ 1 := by omega
  have hl : (yn * 2 + xn) * 4 + 2 < blankBuffer.length := by
    simp only [blankBuffer, List.length_replicate]
    omega
  obtain ⟨r, g, b, hr, hg, hb, hav⟩ := avgAt_some blankBuffer ((yn * 2 + xn) * 4) hl
  have hp := pixelIndex_natCast 2 xn yn
  simp only [Nat.cast_ofNat] at hp
  rw [hp, hav]
  have e1 := List.getElem?_mem hr
  have e2 := List.getElem?_mem hg
  have e3 := List.getElem?_mem hb
  simp only [blankBuffer, List.mem_replicate] at e1 e2 e3
  rw [e1.2, e2.2, e3.2]
  norm_num

theorem blankBuffer_background (x y : Nat) (hx : x < 2) (hy : y < 2) :
    isBackground blankBuffer 2 x y = true := by
  have h := blankBuffer_avg x y (by omega) (by omega) (by omega) (by omega)
  unfold isBackground pixelMean
  simp only [Nat.cast_ofNat]
  rw [h]
  exact decide_eq_true (by norm_num)

theorem paleBuffer_background (x y : Nat) (hx : x < 2) (hy : y < 2) :
    isBackground paleBuffer 2 x y = true := by
  have hx2 : x = 0 ∨ x = 1 := by omega
  have hy2 : y = 0 ∨ y = 1 := by omega
  rcases hx2 with rfl | rfl <;> rcases hy2 with rfl | rfl <;>
    simp [isBackground, pixelMean, pixelIndex, avgAt, readAt, paleBuffer] <;> norm_num

theorem pixelMass_of_mean (imageData : List Nat) (w x y : Nat) (avg : ℚ)
    (h : pixelMean imageData w x y = some avg) :
    pixelMass imageData (w : Int) (x : Int) (y : Int) = 255 - avg := by
  unfold pixelMean at h
  unfold pixelMass
  rw [h]

theorem squareBuffer_mean_inside (xn yn : Nat)
    (hsq : 45 ≤ xn ∧ xn ≤ 54 ∧ 45 ≤ yn ∧ yn ≤ 54) :
    pixelMean squareBuffer 100 xn yn = some 0 := by
  have hm := squareBuffer_mean xn yn (by omega) (by omega)
  rw [if_pos hsq] at hm
  exact hm

theorem squareBuffer_mass (x y : Int) (hx0 : 45 ≤ x) (hx1 : x ≤ 54) (hy0 : 45 ≤ y)
    (hy1 : y ≤ 54) : pixelMass squareBuffer 100 x y = 255 := by
  obtain ⟨xn, rfl⟩ := Int.eq_ofNat_of_zero_le (by omega : 0 ≤ x)
  obtain ⟨yn, rfl⟩ := Int.eq_ofNat_of_zero_le (by omega : 0 ≤ y)
  have hsq : 45 ≤ xn ∧ xn ≤ 54 ∧ 45 ≤ yn ∧ yn ≤ 54 := by omega
  have hm := pixelMass_of_mean squareBuffer 100 xn yn 0 (squareBuffer_mean_inside xn yn hsq)
  have h0 : (255 : ℚ) - 0 = 255 := by norm_num
  rw [h0] at hm
  simpa using hm

theorem squareBuffer_totalMass :
    specTotalMass squareBuffer 100 { minX := 45, minY := 45, maxX := 54, maxY := 54 } = 25500 := by
  unfold specTotalMass
  have e : ∀ y ∈ Finset.Icc (45 : Int) 54, ∑ x ∈ Finset.Icc (45 : Int) 54,
      pixelMass squareBuffer 100 x y = 2550 := by
    intro y hy
    rw [Finset.mem_Icc] at hy
    rw [Finset.sum_congr rfl (fun x hx => squareBuffer_mass x y (Finset.mem_Icc.1 hx).1
      (Finset.mem_Icc.1 hx).2 hy.1 hy.2)]
    simp
    norm_num
  rw [Finset.sum_congr rfl e]
  simp
  norm_num

theorem squareBuffer_chan : ∀ v ∈ squareBuffer, v ≤ 255 := by
  intro v hv
  unfold squareBuffer at hv
  rw [List.mem_map] at hv
  obtain ⟨j, -, rfl⟩ := hv
  split_ifs <;> omega


theorem avgAt_of_mean (imageData : List Nat) (w x y : Nat) (avg : ℚ)
    (h : pixelMean imageData w x y = some avg) :
    avgAt imageData (pixelIndex (w : Int) (x : Int) (y : Int)) = some avg := by
  unfold pixelMean at h
  exact h

theorem squareBuffer_whole : ∀ x y : Int, 45 ≤ x → x ≤ 54 → 45 ≤ y → y ≤ 54 →
    ∃ k : Nat, avgAt squareBuffer (pixelIndex ((100 : Nat) : Int) x y) = some (k : ℚ) := by
  intro x y h1 h2 h3 h4
  obtain ⟨xn, rfl⟩ := Int.eq_ofNat_of_zero_le (by omega : 0 ≤ x)
  obtain ⟨yn, rfl⟩ := Int.eq_ofNat_of_zero_le (by omega : 0 ≤ y)
  have hsq : 45 ≤ xn ∧ xn ≤ 54 ∧ 45 ≤ yn ∧ yn ≤ 54 := by omega
  refine ⟨0, ?_⟩
  rw [Nat.cast_zero]
  exact avgAt_of_mean squareBuffer 100 xn yn 0 (squareBuffer_mean_inside xn yn hsq)

/-! ## applyGaussianBlur -/

theorem toUint8Clamp_natCast (r : Nat) (hr : r ≤ 255) : toUint8Clamp (some (r : ℚ)) = r := by
  unfold toUint8Clamp
  simp only
  by_cases h0 : (r : ℚ) ≤ 0
  · rw [if_pos h0]
    have : r = 0 := by exact_mod_cast le_antisymm h0 (Nat.cast_nonneg r)
    omega
  · rw [if_neg h0]
    by_cases h1 : (255 : ℚ) ≤ (r : ℚ)
    · rw [if_pos h1]
      have : 255 ≤ r := by exact_mod_cast h1
      omega
    · rw [if_neg h1]
      have hf : ⌊(r : ℚ)⌋.toNat = r := by simp
      rw [hf]
      have hlt : (r : ℚ) - (r : ℚ) < 1 / 2 := by norm_num
      rw [if_pos hlt]

theorem clamp_index (n : Nat) (k : Int) (m : Nat) (hn : n < m) :
    ∃ c : Nat, c < m ∧ min (max ((n : Int) + k) 0) ((m : Int) - 1) = (c : Int) := by
  refine ⟨(min (max ((n : Int) + k) 0) ((m : Int) - 1)).toNat, ?_, ?_⟩ <;> omega

theorem blurTap_flat (imageData : List Nat) (w h x y r : Nat) (s : ℚ) (ky kx : Int)
    (hred : ∀ x y, x < w → y < h → imageData[(y * w + x) * 4]? = some r)
    (hx : x < w) (hy : y < h) :
    blurTap imageData w h x y (some s) ky kx = some (s + (r : ℚ) * kernelWeight ky kx) := by
  obtain ⟨py, hpy, epy⟩ := clamp_index y ky h hy
  obtain ⟨px, hpx, epx⟩ := clamp_index x kx w hx
  unfold blurTap
  simp only [epy, epx]
  rw [pixelIndex_natCast, readAt_natCast, hred px py hpx hpy]

theorem blurSum_flat (imageData : List Nat) (w h x y r : Nat)
    (hred : ∀ x y, x < w → y < h → imageData[(y * w + x) * 4]? = some r)
    (hx : x < w) (hy : y < h) :
    blurSum imageData w h x y = some (16 * (r : ℚ)) := by
  unfold blurSum
  simp only [List.foldl_cons, List.foldl_nil, blurTap_flat imageData w h x y r _ _ _ hred hx hy]
  have k1 : kernelWeight (-1) (-1) = 1 := by simp [kernelWeight, kernel]
  have k2 : kernelWeight (-1) 0 = 2 := by simp [kernelWeight, kernel]
  have k3 : kernelWeight (-1) 1 = 1 := by simp [kernelWeight, kernel]
  have k4 : kernelWeight 0 (-1) = 2 := by simp [kernelWeight, kernel]
  have k5 : kernelWeight 0 0 = 4 := by simp [kernelWeight, kernel]
  have k6 : kernelWeight 0 1 = 2 := by simp [kernelWeight, kernel]
  have k7 : kernelWeight 1 (-1) = 1 := by simp [kernelWeight, kernel]
  have k8 : kernelWeight 1 0 = 2 := by simp [kernelWeight, kernel]
  have k9 : kernelWeight 1 1 = 1 := by simp [kernelWeight, kernel]
  rw [k1, k2, k3, k4, k5, k6, k7, k8, k9]
  congr 1
  ring

theorem blurred_flat (imageData : List Nat) (w h x y r : Nat)
    (hred : ∀ x y, x < w → y < h → imageData[(y * w + x) * 4]? = some r)
    (hr : r ≤ 255) (hx : x < w) (hy : y < h) :
    toUint8Clamp ((blurSum imageData w h x y).map (fun sum => sum / kernelSum)) = r := by
  rw [blurSum_flat imageData w h x y r hred hx hy]
  have e : (16 * (r : ℚ)) / kernelSum = (r : ℚ) := by
    unfold kernelSum
    field_simp
  simp only [Option.map_some', e]
  exact toUint8Clamp_natCast r hr

theorem storePixel_length (output : List Nat) (i : Nat) (blurred : Option ℚ) :
    (storePixel output i blurred).length = output.length := by
  simp [storePixel]

theorem storePixel_get (output : List Nat) (q r j : Nat) (blurred : Option ℚ)
    (hv : toUint8Clamp blurred = r) :
    (storePixel output (q * 4) blurred)[j]? =
      if j / 4 = q ∧ j < output.length then some (greyChannel r j)
      else output[j]? := by
  unfold storePixel greyChannel
  rw [hv]
  simp only [List.getElem?_set, List.length_set]
  by_cases hl : j < output.length
  · split_ifs <;> first | rfl | omega
  · rw [List.getElem?_eq_none (by omega : output.length ≤ j)]
    split_ifs <;> first | rfl | omega

theorem storePixel_fold (w r : Nat) (val : Nat × Nat → Option ℚ) (L : List (Nat × Nat))
    (output : List Nat) (hval : ∀ p ∈ L, toUint8Clamp (val p) = r) :
    (L.foldl (fun out p => storePixel out ((p.2 * w + p.1) * 4) (val p)) output).length =
      output.length ∧
    (∀ j, output[j]? = some (greyChannel r j) →
      (L.foldl (fun out p => storePixel out ((p.2 * w + p.1) * 4) (val p)) output)[j]? =
        some (greyChannel r j)) ∧
    (∀ j, j < output.length → (∃ p ∈ L, j / 4 = p.2 * w + p.1) →
      (L.foldl (fun out p => storePixel out ((p.2 * w + p.1) * 4) (val p)) output)[j]? =
        some (greyChannel r j)) := by
  induction L generalizing output with
  | nil =>
    refine ⟨rfl, fun j hj => hj, ?_⟩
    rintro j - ⟨p, hp, -⟩
    cases hp
  | cons q L ih =>
    simp only [List.foldl_cons]
    have hq := hval q (List.mem_cons_self _ _)
    obtain ⟨hlen, hpres, hest⟩ := ih (storePixel output ((q.2 * w + q.1) * 4) (val q))
      (fun p hp => hval p (List.mem_cons_of_mem _ hp))
    have hkeep : ∀ j, output[j]? = some (greyChannel r j) →
        (storePixel output ((q.2 * w + q.1) * 4) (val q))[j]? = some (greyChannel r j) := by
      intro j hj
      rw [storePixel_get output (q.2 * w + q.1) r j (val q) hq]
      split_ifs
      · rfl
      · exact hj
    refine ⟨hlen.trans (storePixel_length _ _ _), fun j hj => hpres j (hkeep j hj), ?_⟩
    rintro j hj ⟨p, hp, hpe⟩
    rcases List.mem_cons.1 hp with rfl | hp
    · apply hpres
      rw [storePixel_get output (p.2 * w + p.1) r j (val p) hq, if_pos ⟨hpe, hj⟩]
    · exact hest j (by rw [storePixel_length]; exact hj) ⟨p, hp, hpe⟩

/-- One pass over a grid whose red channel is `r` everywhere gives the grid whose every
pixel is `(r, r, r, 255)`. -/
theorem applyGaussianBlur_flat (imageData : List Nat) (w h r : Nat)
    (hlen : imageData.length = 4 * w * h)
    (hred : ∀ x y, x < w → y < h → imageData[(y * w + x) * 4]? = some r)
    (hr : r ≤ 255) :
    applyGaussianBlur imageData w h = greyGrid w h r := by
  unfold applyGaussianBlur
  rw [foldl_nested (fun output x y => storePixel output ((y * w + x) * 4)
    ((blurSum imageData w h x y).map (fun sum => sum / kernelSum)))]
  obtain ⟨hl, -, hest⟩ := storePixel_fold w r
    (fun p => (blurSum imageData w h p.1 p.2).map (fun sum => sum / kernelSum))
    ((List.range h).flatMap (fun y => (List.range w).map (fun x => (x, y))))
    (List.replicate imageData.length 0)
    (fun p hp => blurred_flat imageData w h p.1 p.2 r hred hr
      ((mem_scan w h p).1 hp).1 ((mem_scan w h p).1 hp).2)
  rw [List.length_replicate] at hl hest
  apply List.ext_getElem?
  intro j
  by_cases hj : j < 4 * w * h
  · have hw : 0 < w := by
      rcases Nat.eq_zero_or_pos w with h0 | h0
      · rw [h0] at hj; simp at hj
      · exact h0
    have hq : j / 4 < w * h := by
      rw [Nat.mul_assoc] at hj
      omega
    have hy : j / 4 / w < h := (Nat.div_lt_iff_lt_mul hw).2 (by rw [Nat.mul_comm h w]; exact hq)
    have hx : j / 4 % w < w := Nat.mod_lt _ hw
    have hd : j / 4 = j / 4 / w * w + j / 4 % w := (Nat.div_add_mod' (j / 4) w).symm
    rw [hest j (by rw [hlen]; exact hj) ⟨(j / 4 % w, j / 4 / w), (mem_scan w h _).2 ⟨hx, hy⟩, hd⟩]
    unfold greyGrid
    rw [List.getElem?_map, List.getElem?_range hj]
    rfl
  · rw [List.getElem?_eq_none (by rw [hl, hlen]; omega),
      List.getElem?_eq_none (by simp [greyGrid]; omega)]

theorem greyGrid_red (w h r x y : Nat) (hx : x < w) (hy : y < h) :
    (greyGrid w h r)[(y * w + x) * 4]? = some r := by
  have hp := pixel_lt hx hy
  have hl : (y * w + x) * 4 < 4 * w * h := by
    rw [Nat.mul_assoc]; omega
  unfold greyGrid
  rw [List.getElem?_map, List.getElem?_range hl]
  have hm : (y * w + x) * 4 % 4 ≠ 3 := by omega
  simp [greyChannel, hm]

theorem greyGrid_length (w h r : Nat) : (greyGrid w h r).length = 4 * w * h := by
  simp [greyGrid]

/-- Two passes over a grid whose red channel is `r` everywhere. -/
theorem applyGaussianBlur_twice_flat (imageData : List Nat) (w h r : Nat)
    (hlen : imageData.length = 4 * w * h)
    (hred : ∀ x y, x < w → y < h → imageData[(y * w + x) * 4]? = some r)
    (hr : r ≤ 255) :
    applyGaussianBlur (applyGaussianBlur imageData w h) w h = greyGrid w h r := by
  rw [applyGaussianBlur_flat imageData w h r hlen hred hr]
  exact applyGaussianBlur_flat (greyGrid w h r) w h r (greyGrid_length w h r)
    (fun x y hx hy => greyGrid_red w h r x y hx hy) hr

/-- A grid whose every pixel is `(r, r, r, 255)` is `greyGrid`. -/
theorem eq_greyGrid (imageData : List Nat) (w h r : Nat)
    (hlen : imageData.length = 4 * w * h)
    (hflat : ∀ x y, x < w → y < h →
      imageData[(y * w + x) * 4]? = some r ∧ imageData[(y * w + x) * 4 + 1]? = some r ∧
      imageData[(y * w + x) * 4 + 2]? = some r ∧ imageData[(y * w + x) * 4 + 3]? = some 255) :
    imageData = greyGrid w h r := by
  apply List.ext_getElem?
  intro j
  by_cases hj : j < 4 * w * h
  · have hw : 0 < w := by
      rcases Nat.eq_zero_or_pos w with h0 | h0
      · rw [h0] at hj; simp at hj
      · exact h0
    have hq : j / 4 < w * h := by
      rw [Nat.mul_assoc] at hj
      omega
    have hy : j / 4 / w < h := (Nat.div_lt_iff_lt_mul hw).2 (by rw [Nat.mul_comm h w]; exact hq)
    have hx : j / 4 % w < w := Nat.mod_lt _ hw
    have hd : j / 4 / w * w + j / 4 % w = j / 4 := Nat.div_add_mod' (j / 4) w
    obtain ⟨f0, f1, f2, f3⟩ := hflat (j / 4 % w) (j / 4 / w) hx hy
    rw [hd] at f0 f1 f2 f3
    unfold greyGrid
    rw [List.getElem?_map, List.getElem?_range hj]
    have h4 : j % 4 = 0 ∨ j % 4 = 1 ∨ j % 4 = 2 ∨ j % 4 = 3 := by omega
    rcases h4 with h4 | h4 | h4 | h4
    · have e : j / 4 * 4 = j := by omega
      rw [e] at f0
      simp [greyChannel, h4, f0]
    · have e : j / 4 * 4 + 1 = j := by omega
      rw [e] at f1
      simp [greyChannel, h4, f1]
    · have e : j / 4 * 4 + 2 = j := by omega
      rw [e] at f2
      simp [greyChannel, h4, f2]
    · have e : j / 4 * 4 + 3 = j := by omega
      rw [e] at f3
      simp [greyChannel, h4, f3]
  · rw [List.getElem?_eq_none (by rw [hlen]; omega),
      List.getElem?_eq_none (by simp [greyGrid]; omega)]


/-! ## Claims about getBoundingBox -/

/-- C1. For a buffer of `w` by `h` pixels that holds at least one ink pixel (mean of red, green
and blue below 250), every pixel outside the box returned by `getBoundingBox` (left of `minX`,
right of `maxX`, above `minY` or below `maxY`) is background (mean at least 250), and there is
an ink pixel in column `minX`, one in column `maxX`, one in row `minY` and one in row
`maxY`. -/
theorem getBoundingBox_tight (imageData : List Nat) (w h : Nat)
    (hlen : imageData.length = 4 * w * h)
    (hink : ∃ x y, x < w ∧ y < h ∧ isInk imageData w x y = true) :
    (∀ x y, x < w → y < h →
      ((x : Int) < (getBoundingBox imageData w h).minX ∨
        (getBoundingBox imageData w h).maxX < (x : Int) ∨
        (y : Int) < (getBoundingBox imageData w h).minY ∨
        (getBoundingBox imageData w h).maxY < (y : Int)) →
      isBackground imageData w x y = true) ∧
    (∃ x y, x < w ∧ y < h ∧ (x : Int) = (getBoundingBox imageData w h).minX ∧
      isInk imageData w x y = true) ∧
    (∃ x y, x < w ∧ y < h ∧ (x : Int) = (getBoundingBox imageData w h).maxX ∧
      isInk imageData w x y = true) ∧
    (∃ x y, x < w ∧ y < h ∧ (y : Int) = (getBoundingBox imageData w h).minY ∧
      isInk imageData w x y = true) ∧
    (∃ x y, x < w ∧ y < h ∧ (y : Int) = (getBoundingBox imageData w h).maxY ∧
      isInk imageData w x y = true) := by
  rw [getBoundingBox_eq_fold]
  obtain ⟨-, hin, a1, a2, a3, a4⟩ := boundingBox_fold imageData w
    ((List.range h).flatMap (fun y => (List.range w).map (fun x => (x, y))))
    { minX := w, minY := h, maxX := 0, maxY := 0 }
  generalize ((List.range h).flatMap (fun y => (List.range w).map (fun x => (x, y)))).foldl
    (fun b p => boundingBoxStep imageData w b p.1 p.2)
    { minX := w, minY := h, maxX := 0, maxY := 0 } = B at hin a1 a2 a3 a4 ⊢
  obtain ⟨x0, y0, hx0, hy0, hi0⟩ := hink
  have e0 := hin (x0, y0) ((mem_scan w h _).2 ⟨hx0, hy0⟩) hi0
  simp only at e0 a1 a2 a3 a4
  refine ⟨?_, ?_, ?_, ?_, ?_⟩
  · intro x y hx hy hout
    apply isBackground_of_not_isInk imageData w h x y hlen hx hy
    cases hi : isInk imageData w x y with
    | false => rfl
    | true =>
      have e := hin (x, y) ((mem_scan w h _).2 ⟨hx, hy⟩) hi
      simp only at e
      omega
  · rcases a1 with hB | ⟨p, hp, hpi, hpe⟩
    · omega
    · exact ⟨p.1, p.2, ((mem_scan w h p).1 hp).1, ((mem_scan w h p).1 hp).2, hpe, hpi⟩
  · rcases a3 with hB | ⟨p, hp, hpi, hpe⟩
    · exact ⟨x0, y0, hx0, hy0, by omega, hi0⟩
    · exact ⟨p.1, p.2, ((mem_scan w h p).1 hp).1, ((mem_scan w h p).1 hp).2, hpe, hpi⟩
  · rcases a2 with hB | ⟨p, hp, hpi, hpe⟩
    · omega
    · exact ⟨p.1, p.2, ((mem_scan w h p).1 hp).1, ((mem_scan w h p).1 hp).2, hpe, hpi⟩
  · rcases a4 with hB | ⟨p, hp, hpi, hpe⟩
    · exact ⟨x0, y0, hx0, hy0, by omega, hi0⟩
    · exact ⟨p.1, p.2, ((mem_scan w h p).1 hp).1, ((mem_scan w h p).1 hp).2, hpe, hpi⟩

/-- C1, on the 100 by 100 white buffer with a black square over 45..54: the hypotheses of
`getBoundingBox_tight` hold there, the box is (45,45)-(54,54), and it is tight. -/
theorem getBoundingBox_tight_square :
    squareBuffer.length = 4 * 100 * 100 ∧
    (∃ x y : Nat, x < 100 ∧ y < 100 ∧ isInk squareBuffer 100 x y = true) ∧
    getBoundingBox squareBuffer 100 100 = { minX := 45, minY := 45, maxX := 54, maxY := 54 } ∧
    ((∀ x y : Nat, x < 100 → y < 100 →
      ((x : Int) < (getBoundingBox squareBuffer 100 100).minX ∨
        (getBoundingBox squareBuffer 100 100).maxX < (x : Int) ∨
        (y : Int) < (getBoundingBox squareBuffer 100 100).minY ∨
        (getBoundingBox squareBuffer 100 100).maxY < (y : Int)) →
      isBackground squareBuffer 100 x y = true) ∧
    (∃ x y : Nat, x < 100 ∧ y < 100 ∧ (x : Int) = (getBoundingBox squareBuffer 100 100).minX ∧
      isInk squareBuffer 100 x y = true) ∧
    (∃ x y : Nat, x < 100 ∧ y < 100 ∧ (x : Int) = (getBoundingBox squareBuffer 100 100).maxX ∧
      isInk squareBuffer 100 x y = true) ∧
    (∃ x y : Nat, x < 100 ∧ y < 100 ∧ (y : Int) = (getBoundingBox squareBuffer 100 100).minY ∧
      isInk squareBuffer 100 x y = true) ∧
    (∃ x y : Nat, x < 100 ∧ y < 100 ∧ (y : Int) = (getBoundingBox squareBuffer 100 100).maxY ∧
      isInk squareBuffer 100 x y = true)) :=
  ⟨squareBuffer_length,
    ⟨45, 45, by omega, by omega, by rw [squareBuffer_isInk 45 45 (by omega) (by omega)]; decide⟩,
    squareBuffer_box,
    getBoundingBox_tight squareBuffer 100 100 squareBuffer_length
      ⟨45, 45, by omega, by omega,
        by rw [squareBuffer_isInk 45 45 (by omega) (by omega)]; decide⟩⟩

/-- C3. For a buffer of `w >= 1` by `h >= 1` pixels in which every pixel is background (mean
of red, green and blue at least 250), `getBoundingBox` returns `minX = w`, `minY = h`,
`maxX = 0`, `maxY = 0`, which is no rectangle (`minX > maxX` and `minY > maxY`); the result
depends on `w` and `h` only, so a second all-background buffer of that size gives the same
box. -/
theorem getBoundingBox_blank (imageData other : List Nat) (w h : Nat)
    (hw : 1 ≤ w) (hh : 1 ≤ h)
    (hbg : ∀ x y, x < w → y < h → isBackground imageData w x y = true)
    (hbg2 : ∀ x y, x < w → y < h → isBackground other w x y = true) :
    getBoundingBox imageData w h = { minX := w, minY := h, maxX := 0, maxY := 0 } ∧
    (getBoundingBox imageData w h).minX > (getBoundingBox imageData w h).maxX ∧
    (getBoundingBox imageData w h).minY > (getBoundingBox imageData w h).maxY ∧
    getBoundingBox other w h = getBoundingBox imageData w h := by
  have e1 := getBoundingBox_no_ink imageData w h
    (fun x y hx hy => not_isInk_of_isBackground imageData w x y (hbg x y hx hy))
  have e2 := getBoundingBox_no_ink other w h
    (fun x y hx hy => not_isInk_of_isBackground other w x y (hbg2 x y hx hy))
  rw [e1, e2]
  refine ⟨rfl, ?_, ?_, rfl⟩
  · show (0 : Int) < (w : Int)
    omega
  · show (0 : Int) < (h : Int)
    omega

/-- C3 on two different all-background buffers of 2 by 2 pixels: both give the box
`minX = 2, minY = 2, maxX = 0, maxY = 0`. -/
theorem getBoundingBox_blank_example :
    (1 ≤ 2) ∧ (1 ≤ 2) ∧
    (∀ x y : Nat, x < 2 → y < 2 → isBackground blankBuffer 2 x y = true) ∧
    (∀ x y : Nat, x < 2 → y < 2 → isBackground paleBuffer 2 x y = true) ∧
    (getBoundingBox blankBuffer 2 2 = { minX := 2, minY := 2, maxX := 0, maxY := 0 } ∧
      (getBoundingBox blankBuffer 2 2).minX > (getBoundingBox blankBuffer 2 2).maxX ∧
      (getBoundingBox blankBuffer 2 2).minY > (getBoundingBox blankBuffer 2 2).maxY ∧
      getBoundingBox paleBuffer 2 2 = getBoundingBox blankBuffer 2 2) :=
  ⟨by omega, by omega, blankBuffer_background, paleBuffer_background,
    getBoundingBox_blank blankBuffer paleBuffer 2 2 (by omega) (by omega)
      blankBuffer_background paleBuffer_background⟩

/-- C7 on the 100 by 100 white buffer with a black square over 45..54, evaluated over the
whole box (45,45)-(54,54): the hypotheses hold and the centre of mass lies in the box. -/
theorem getCenterOfMass_weighted_square :
    (∀ v ∈ squareBuffer, v ≤ 255) ∧
    (∀ x y : Int, 45 ≤ x → x ≤ 54 → 45 ≤ y → y ≤ 54 →
      ∃ k : Nat, avgAt squareBuffer (pixelIndex ((100 : Nat) : Int) x y) = some (k : ℚ)) ∧
    255 * (100 * 100) * max 100 100 ≤ 2 ^ 53 ∧
    specTotalMass squareBuffer 100 { minX := 45, minY := 45, maxX := 54, maxY := 54 } ≠ 0 ∧
    (getCenterOfMass squareBuffer 100 100 { minX := 45, minY := 45, maxX := 54, maxY := 54 } =
      some { x := roundToDouble
                (specMomentX squareBuffer 100 { minX := 45, minY := 45, maxX := 54, maxY := 54 } /
                  specTotalMass squareBuffer 100
                    { minX := 45, minY := 45, maxX := 54, maxY := 54 }),
             y := roundToDouble
                (specMomentY squareBuffer 100 { minX := 45, minY := 45, maxX := 54, maxY := 54 } /
                  specTotalMass squareBuffer 100
                    { minX := 45, minY := 45, maxX := 54, maxY := 54 }) } ∧
    (45 : ℚ) ≤ roundToDouble
      (specMomentX squareBuffer 100 { minX := 45, minY := 45, maxX := 54, maxY := 54 } /
        specTotalMass squareBuffer 100 { minX := 45, minY := 45, maxX := 54, maxY := 54 }) ∧
    roundToDouble
      (specMomentX squareBuffer 100 { minX := 45, minY := 45, maxX := 54, maxY := 54 } /
        specTotalMass squareBuffer 100 { minX := 45, minY := 45, maxX := 54, maxY := 54 }) ≤
      (54 : ℚ) ∧
    (45 : ℚ) ≤ roundToDouble
      (specMomentY squareBuffer 100 { minX := 45, minY := 45, maxX := 54, maxY := 54 } /
        specTotalMass squareBuffer 100 { minX := 45, minY := 45, maxX := 54, maxY := 54 }) ∧
    roundToDouble
      (specMomentY squareBuffer 100 { minX := 45, minY := 45, maxX := 54, maxY := 54 } /
        specTotalMass squareBuffer 100 { minX := 45, minY := 45, maxX := 54, maxY := 54 }) ≤
      (54 : ℚ)) := by
  have hm : specTotalMass squareBuffer 100
      { minX := 45, minY := 45, maxX := 54, maxY := 54 } ≠ 0 := by
    rw [squareBuffer_totalMass]
    norm_num
  have hs : 255 * (100 * 100) * max 100 100 ≤ 2 ^ 53 := by norm_num
  have key := getCenterOfMass_weighted squareBuffer 100 100
    { minX := 45, minY := 45, maxX := 54, maxY := 54 } squareBuffer_chan
    (by decide) (by decide) (by decide) (by decide) squareBuffer_whole hs hm
  exact ⟨squareBuffer_chan, squareBuffer_whole, hs, hm, by simpa using key⟩

/-- C7 as claimed fails: on the 4 by 1 buffer whose last pixel is `(193, 0, 0)`, over the box
(3,0)-(3,0), the total mass is not zero and `sum(x * mass) / sum(mass)` is 3, but the mass
`255 - 193 / 3` and the product `3 * mass` are both rounded, and `getCenterOfMass` returns
`x = 3 - 2^-51` (2.9999999999999996), left of `minX = 3`. -/
theorem getCenterOfMass_left_of_box :
    edgeBuffer.length = 4 * 4 * 1 ∧ (∀ v ∈ edgeBuffer, v ≤ 255) ∧
    specTotalMass edgeBuffer 4 { minX := 3, minY := 0, maxX := 3, maxY := 0 } ≠ 0 ∧
    specMomentX edgeBuffer 4 { minX := 3, minY := 0, maxX := 3, maxY := 0 } /
      specTotalMass edgeBuffer 4 { minX := 3, minY := 0, maxX := 3, maxY := 0 } = 3 ∧
    getCenterOfMass edgeBuffer 4 1 { minX := 3, minY := 0, maxX := 3, maxY := 0 } =
      some { x := 6755399441055743 / 2251799813685248, y := 0 } ∧
    (6755399441055743 / 2251799813685248 : ℚ) < ((3 : Int) : ℚ) := by
  obtain ⟨eT, eX⟩ := edgeBuffer_sums_exact
  refine ⟨rfl, by decide, ?_, ?_, ?_, by norm_num⟩
  · rw [eT]
    norm_num
  · rw [eT, eX]
    norm_num
  · unfold getCenterOfMass
    rw [edgeBuffer_sums]
    norm_num [edge_quotient, roundToDouble_zero]

/-- C8 as claimed fails: on the blank 2 by 2 buffer, over the whole buffer (0,0)-(1,1), every
pixel has mass zero and `getCenterOfMass` returns (1, 1), not the centre (1/2, 1/2) of the
rectangle. -/
theorem getCenterOfMass_fallback_not_centre :
    (∀ x y : Int, 0 ≤ x → x ≤ 1 → 0 ≤ y → y ≤ 1 →
      avgAt blankBuffer (pixelIndex 2 x y) = some 255) ∧
    getCenterOfMass blankBuffer 2 2 { minX := 0, minY := 0, maxX := 1, maxY := 1 } =
      some { x := 1, y := 1 } ∧
    getCenterOfMass blankBuffer 2 2 { minX := 0, minY := 0, maxX := 1, maxY := 1 } ≠
      some { x := ((0 : ℚ) + 1) / 2, y := ((0 : ℚ) + 1) / 2 } := by
  have key := getCenterOfMass_zero_mass blankBuffer 2 2
    { minX := 0, minY := 0, maxX := 1, maxY := 1 } blankBuffer_avg
  have h1 : ((2 : Int) : ℚ) / 2 = 1 := by norm_num
  rw [h1] at key
  refine ⟨blankBuffer_avg, key, ?_⟩
  rw [key]
  intro h
  have hx := congrArg (fun p => p.map Point.x) h
  simp only [Option.map_some', Option.some.injEq] at hx
  norm_num at hx

/-- C8 as the code has it, on the blank 2 by 2 buffer over (0,0)-(1,1): the total mass is 0
and the result is `(2 / 2, 2 / 2)`. -/
theorem getCenterOfMass_fallback_blank :
    (∀ x y : Int, 0 ≤ x → x ≤ 1 → 0 ≤ y → y ≤ 1 →
      avgAt blankBuffer (pixelIndex 2 x y) = some 255) ∧
    (centerOfMassSums blankBuffer 2 { minX := 0, minY := 0, maxX := 1, maxY := 1 } =
      some (0, specMomentX blankBuffer 2 { minX := 0, minY := 0, maxX := 1, maxY := 1 },
        specMomentY blankBuffer 2 { minX := 0, minY := 0, maxX := 1, maxY := 1 }) ∧
    getCenterOfMass blankBuffer 2 2 { minX := 0, minY := 0, maxX := 1, maxY := 1 } =
      some { x := ((2 : Int) : ℚ) / 2, y := ((2 : Int) : ℚ) / 2 }) :=
  ⟨blankBuffer_avg,
    getCenterOfMass_fallback blankBuffer 2 2 { minX := 0, minY := 0, maxX := 1, maxY := 1 }
      blankBuffer_avg⟩

/-- C9 on the 100 by 100 white buffer with a black square over 45..54, evaluated over the box
(45,45)-(54,54): the masses are symmetric, the total mass is 25500, and the centre of mass is
(49.5, 49.5). -/
theorem getCenterOfMass_symmetric_square :
    (∀ v ∈ squareBuffer, v ≤ 255) ∧
    (∀ x y : Int, 45 ≤ x → x ≤ 54 → 45 ≤ y → y ≤ 54 →
      ∃ k : Nat, avgAt squareBuffer (pixelIndex ((100 : Nat) : Int) x y) = some (k : ℚ)) ∧
    255 * (100 * 100) * max 100 100 ≤ 2 ^ 53 ∧
    (∀ x y : Int, 45 ≤ x → x ≤ 54 → 45 ≤ y → y ≤ 54 →
      pixelMass squareBuffer 100 x y = pixelMass squareBuffer 100 (45 + 54 - x) y) ∧
    (∀ x y : Int, 45 ≤ x → x ≤ 54 → 45 ≤ y → y ≤ 54 →
      pixelMass squareBuffer 100 x y = pixelMass squareBuffer 100 x (45 + 54 - y)) ∧
    specTotalMass squareBuffer 100 { minX := 45, minY := 45, maxX := 54, maxY := 54 } ≠ 0 ∧
    getCenterOfMass squareBuffer 100 100 { minX := 45, minY := 45, maxX := 54, maxY := 54 } =
      some { x := 99 / 2, y := 99 / 2 } := by
  have hm : specTotalMass squareBuffer 100
      { minX := 45, minY := 45, maxX := 54, maxY := 54 } ≠ 0 := by
    rw [squareBuffer_totalMass]
    norm_num
  have hs : 255 * (100 * 100) * max 100 100 ≤ 2 ^ 53 := by norm_num
  have sx : ∀ x y : Int, 45 ≤ x → x ≤ 54 → 45 ≤ y → y ≤ 54 →
      pixelMass squareBuffer 100 x y = pixelMass squareBuffer 100 (45 + 54 - x) y := by
    intro x y h1 h2 h3 h4
    rw [squareBuffer_mass x y h1 h2 h3 h4,
      squareBuffer_mass (45 + 54 - x) y (by omega) (by omega) h3 h4]
  have sy : ∀ x y : Int, 45 ≤ x → x ≤ 54 → 45 ≤ y → y ≤ 54 →
      pixelMass squareBuffer 100 x y = pixelMass squareBuffer 100 x (45 + 54 - y) := by
    intro x y h1 h2 h3 h4
    rw [squareBuffer_mass x y h1 h2 h3 h4,
      squareBuffer_mass x (45 + 54 - y) h1 h2 (by omega) (by omega)]
  have key := getCenterOfMass_symmetric squareBuffer 100 100
    { minX := 45, minY := 45, maxX := 54, maxY := 54 } squareBuffer_chan
    (by decide) (by decide) (by decide) (by decide) squareBuffer_whole hs sx sy hm
  have e : ((45 : Int) : ℚ) + ((54 : Int) : ℚ) = 99 := by norm_num
  simp only [e] at key
  exact ⟨squareBuffer_chan, squareBuffer_whole, hs, sx, sy, hm, key⟩

/-- C9 as claimed fails: the 3 by 1 buffer `(2, 0, 0)`, `(255, 255, 246)`, `(2, 0, 0)` is
symmetric over its whole box (0,0)-(2,0) and has mass, so the centre is `x = 1`; the mass
`255 - 2 / 3` and the two sums of masses are rounded, and `getCenterOfMass` returns
`x = 1 - 2^-53` (0.9999999999999999). -/
theorem getCenterOfMass_off_centre :
    mirrorBuffer.length = 4 * 3 * 1 ∧ (∀ v ∈ mirrorBuffer, v ≤ 255) ∧
    (∀ x y : Int, 0 ≤ x → x ≤ 2 → 0 ≤ y → y ≤ 0 →
      pixelMass mirrorBuffer 3 x y = pixelMass mirrorBuffer 3 (0 + 2 - x) y) ∧
    (∀ x y : Int, 0 ≤ x → x ≤ 2 → 0 ≤ y → y ≤ 0 →
      pixelMass mirrorBuffer 3 x y = pixelMass mirrorBuffer 3 x (0 + 0 - y)) ∧
    specTotalMass mirrorBuffer 3 { minX := 0, minY := 0, maxX := 2, maxY := 0 } ≠ 0 ∧
    getCenterOfMass mirrorBuffer 3 1 { minX := 0, minY := 0, maxX := 2, maxY := 0 } =
      some { x := 9007199254740991 / 9007199254740992, y := 0 } ∧
    getCenterOfMass mirrorBuffer 3 1 { minX := 0, minY := 0, maxX := 2, maxY := 0 } ≠
      some { x := ((0 : ℚ) + 2) / 2, y := ((0 : ℚ) + 0) / 2 } := by
  obtain ⟨m0, m1, m2⟩ := mirrorBuffer_mass
  have hres : getCenterOfMass mirrorBuffer 3 1
      { minX := 0, minY := 0, maxX := 2, maxY := 0 } =
      some { x := 9007199254740991 / 9007199254740992, y := 0 } := by
    unfold getCenterOfMass
    rw [mirrorBuffer_sums]
    norm_num [mirror_quotient, roundToDouble_zero]
  refine ⟨rfl, by decide, ?_, ?_, ?_, hres, ?_⟩
  · intro x y h1 h2 h3 h4
    have hy : y = 0 := by omega
    have hx : x = 0 ∨ x = 1 ∨ x = 2 := by omega
    subst hy
    rcases hx with rfl | rfl | rfl
    · rw [m0]
      exact m2.symm
    · rfl
    · rw [m2]
      exact m0.symm
  · intro x y h1 h2 h3 h4
    have hy : y = 0 := by omega
    subst hy
    rfl
  · have e : specTotalMass mirrorBuffer 3 { minX := 0, minY := 0, maxX := 2, maxY := 0 } =
        763 / 3 + (3 + (763 / 3 + 0)) := by
      unfold specTotalMass
      rw [Finset.Icc_self, Finset.sum_singleton,
        ← sum_forRange (fun x => pixelMass mirrorBuffer 3 x 0) 0 2]
      have r2 : forRange 0 2 = [0, 1, 2] := by decide
      rw [r2]
      simp only [List.map_cons, List.map_nil, List.sum_cons, List.sum_nil, m0, m1, m2]
    rw [e]
    norm_num
  · rw [hres]
    intro h
    have hx := congrArg (fun p => p.map Point.x) h
    simp only [Option.map_some', Option.some.injEq] at hx
    norm_num at hx


/-! ## Claims about applyGaussianBlur -/

/-- C6, as the code has it. For a grid of `w` by `h` pixels that all carry the same red,
green, blue and alpha values, two passes of `applyGaussianBlur` return the grid whose every
pixel is `(red, red, red, 255)`: a pass reads the red channel only and writes an opaque grey
pixel. The result is the input grid when the colour is an opaque grey (green and blue equal to
red, alpha 255). -/
theorem applyGaussianBlur_twice_uniform (imageData : List Nat) (w h r g b a : Nat)
    (hlen : imageData.length = 4 * w * h)
    (hflat : ∀ x y, x < w → y < h →
      imageData[(y * w + x) * 4]? = some r ∧ imageData[(y * w + x) * 4 + 1]? = some g ∧
      imageData[(y * w + x) * 4 + 2]? = some b ∧ imageData[(y * w + x) * 4 + 3]? = some a)
    (hr : r ≤ 255) :
    applyGaussianBlur (applyGaussianBlur imageData w h) w h = greyGrid w h r ∧
    (g = r → b = r → a = 255 →
      applyGaussianBlur (applyGaussianBlur imageData w h) w h = imageData) := by
  have key := applyGaussianBlur_twice_flat imageData w h r hlen
    (fun x y hx hy => (hflat x y hx hy).1) hr
  refine ⟨key, ?_⟩
  intro hg hb ha
  rw [hg, hb, ha] at hflat
  rw [key]
  exact (eq_greyGrid imageData w h r hlen hflat).symm

/-- C6 on an opaque grey 2 by 2 grid, every pixel `(200, 200, 200, 255)`: two passes return
it unchanged. -/
theorem applyGaussianBlur_twice_grey :
    greyBuffer.length = 4 * 2 * 2 ∧
    (∀ x y : Nat, x < 2 → y < 2 →
      greyBuffer[(y * 2 + x) * 4]? = some 200 ∧ greyBuffer[(y * 2 + x) * 4 + 1]? = some 200 ∧
      greyBuffer[(y * 2 + x) * 4 + 2]? = some 200 ∧
      greyBuffer[(y * 2 + x) * 4 + 3]? = some 255) ∧
    applyGaussianBlur (applyGaussianBlur greyBuffer 2 2) 2 2 = greyBuffer := by
  have hflat : ∀ x y : Nat, x < 2 → y < 2 →
      greyBuffer[(y * 2 + x) * 4]? = some 200 ∧ greyBuffer[(y * 2 + x) * 4 + 1]? = some 200 ∧
      greyBuffer[(y * 2 + x) * 4 + 2]? = some 200 ∧
      greyBuffer[(y * 2 + x) * 4 + 3]? = some 255 := by
    intro x y hx hy
    have hx2 : x = 0 ∨ x = 1 := by omega
    have hy2 : y = 0 ∨ y = 1 := by omega
    rcases hx2 with rfl | rfl <;> rcases hy2 with rfl | rfl <;> decide
  exact ⟨rfl, hflat,
    (applyGaussianBlur_twice_uniform greyBuffer 2 2 200 200 200 255 rfl hflat (by omega)).2
      rfl rfl rfl⟩

/-- C6 as claimed fails: the 2 by 2 grid whose every pixel is `(10, 20, 30, 255)` is of one
colour, and two passes turn every pixel into `(10, 10, 10, 255)`. -/
theorem applyGaussianBlur_twice_tinted :
    (∀ x y : Nat, x < 2 → y < 2 →
      tintedBuffer[(y * 2 + x) * 4]? = some 10 ∧ tintedBuffer[(y * 2 + x) * 4 + 1]? = some 20 ∧
      tintedBuffer[(y * 2 + x) * 4 + 2]? = some 30 ∧
      tintedBuffer[(y * 2 + x) * 4 + 3]? = some 255) ∧
    applyGaussianBlur (applyGaussianBlur tintedBuffer 2 2) 2 2 =
      [10, 10, 10, 255, 10, 10, 10, 255, 10, 10, 10, 255, 10, 10, 10, 255] ∧
    applyGaussianBlur (applyGaussianBlur tintedBuffer 2 2) 2 2 ≠ tintedBuffer := by
  have hflat : ∀ x y : Nat, x < 2 → y < 2 →
      tintedBuffer[(y * 2 + x) * 4]? = some 10 ∧ tintedBuffer[(y * 2 + x) * 4 + 1]? = some 20 ∧
      tintedBuffer[(y * 2 + x) * 4 + 2]? = some 30 ∧
      tintedBuffer[(y * 2 + x) * 4 + 3]? = some 255 := by
    intro x y hx hy
    have hx2 : x = 0 ∨ x = 1 := by omega
    have hy2 : y = 0 ∨ y = 1 := by omega
    rcases hx2 with rfl | rfl <;> rcases hy2 with rfl | rfl <;> decide
  have key := applyGaussianBlur_twice_flat tintedBuffer 2 2 10 rfl
    (fun x y hx hy => (hflat x y hx hy).1) (by omega)
  have e : greyGrid 2 2 10 =
      [10, 10, 10, 255, 10, 10, 10, 255, 10, 10, 10, 255, 10, 10, 10, 255] := by decide
  rw [e] at key
  refine ⟨hflat, key, ?_⟩
  rw [key]
  decide

/-! ## Claims about getImageData -/

theorem foldl_push {α β : Type} (g : α → β) (l : List α) (init : List β) :
    l.foldl (fun acc i => acc ++ [g i]) init = init ++ l.map g := by
  induction l generalizing init with
  | nil => simp
  | cons a l ih => simp [ih]

theorem normalize_eq_map (pixels : List Nat) :
    normalize pixels = (List.range ((pixels.length + 3) / 4)).map
      (fun k => (avgAt pixels ((4 * k : Nat) : Int)).map (fun avg => 1 - avg / 255)) := by
  unfold normalize
  rw [foldl_push (fun (i : Nat) => (avgAt pixels (i : Int)).map (fun avg => 1 - avg / 255)),
    List.nil_append, List.map_map]
  rfl

/-- C4. For a 28 by 28 buffer (3136 channel values, each in 0..255) the normalisation loop
returns exactly 784 values; entry `k` is `1 - (R + G + B) / (3 * 255)` for the pixel at column
`k mod 28` of row `k div 28`; every entry lies in [0, 1]; a white pixel gives exactly 0 and a
black pixel exactly 1. -/
theorem normalize_spec (pixels : List Nat) (hlen : pixels.length = 3136)
    (hchan : ∀ v ∈ pixels, v ≤ 255) :
    (normalize pixels).length = 784 ∧
    ∀ k, k < 784 → ∃ r g b : Nat,
      pixels[((k / 28) * 28 + k % 28) * 4]? = some r ∧
      pixels[((k / 28) * 28 + k % 28) * 4 + 1]? = some g ∧
      pixels[((k / 28) * 28 + k % 28) * 4 + 2]? = some b ∧
      (normalize pixels)[k]? = some (some (1 - ((r : ℚ) + (g : ℚ) + (b : ℚ)) / (3 * 255))) ∧
      0 ≤ 1 - ((r : ℚ) + (g : ℚ) + (b : ℚ)) / (3 * 255) ∧
      1 - ((r : ℚ) + (g : ℚ) + (b : ℚ)) / (3 * 255) ≤ 1 ∧
      (r = 255 → g = 255 → b = 255 → 1 - ((r : ℚ) + (g : ℚ) + (b : ℚ)) / (3 * 255) = 0) ∧
      (r = 0 → g = 0 → b = 0 → 1 - ((r : ℚ) + (g : ℚ) + (b : ℚ)) / (3 * 255) = 1) := by
  rw [normalize_eq_map, hlen]
  refine ⟨by simp, ?_⟩
  intro k hk
  have hidx : ((k / 28) * 28 + k % 28) * 4 = 4 * k := by omega
  obtain ⟨r, g, b, hr, hg, hb, hav⟩ := avgAt_some pixels (4 * k) (by omega)
  have hr255 : (r : ℚ) ≤ 255 := by exact_mod_cast hchan r (List.getElem?_mem hr)
  have hg255 : (g : ℚ) ≤ 255 := by exact_mod_cast hchan g (List.getElem?_mem hg)
  have hb255 : (b : ℚ) ≤ 255 := by exact_mod_cast hchan b (List.getElem?_mem hb)
  have hr0 : (0 : ℚ) ≤ (r : ℚ) := Nat.cast_nonneg r
  have hg0 : (0 : ℚ) ≤ (g : ℚ) := Nat.cast_nonneg g
  have hb0 : (0 : ℚ) ≤ (b : ℚ) := Nat.cast_nonneg b
  refine ⟨r, g, b, by rw [hidx]; exact hr, by rw [hidx]; exact hg, by rw [hidx]; exact hb,
    ?_, ?_, ?_, ?_, ?_⟩
  · rw [List.getElem?_map, List.getElem?_range (by omega : k < (3136 + 3) / 4)]
    simp only [Option.map_some', hav]
    congr 2
    ring
  · rw [sub_nonneg, div_le_one (by norm_num)]
    linarith
  · rw [sub_le_self_iff]
    apply div_nonneg
    · linarith
    · norm_num
  · intro e1 e2 e3
    subst e1 e2 e3
    norm_num
  · intro e1 e2 e3
    subst e1 e2 e3
    norm_num

/-- C4 on the white 28 by 28 buffer. -/
theorem normalize_spec_white :
    (List.replicate 3136 255).length = 3136 ∧ (∀ v ∈ List.replicate 3136 255, v ≤ 255) ∧
    (normalize (List.replicate 3136 255)).length = 784 :=
  ⟨List.length_replicate _ _, fun v hv => by rw [(List.mem_replicate.1 hv).2],
    (normalize_spec (List.replicate 3136 255) (List.length_replicate _ _)
      (fun v hv => by rw [(List.mem_replicate.1 hv).2])).1⟩

/-- C5. For crop dimensions `w >= 1` and `h >= 1`, with `scale = min(20 / w, 20 / h)` in exact
arithmetic, `scaledWidth / scaledHeight = w / h`, both are at most 20, and the larger of the
two is 20. -/
theorem scaled_dimensions (w h : Int) (hw : 1 ≤ w) (hh : 1 ≤ h) :
    scaledWidth w h / scaledHeight w h = (w : ℚ) / (h : ℚ) ∧
    scaledWidth w h ≤ 20 ∧ scaledHeight w h ≤ 20 ∧
    max (scaledWidth w h) (scaledHeight w h) = 20 := by
  have hwq : (1 : ℚ) ≤ (w : ℚ) := by exact_mod_cast hw
  have hhq : (1 : ℚ) ≤ (h : ℚ) := by exact_mod_cast hh
  have hw0 : (0 : ℚ) < (w : ℚ) := by linarith
  have hh0 : (0 : ℚ) < (h : ℚ) := by linarith
  unfold scaledWidth scaledHeight scale
  rcases le_total (w : ℚ) (h : ℚ) with hle | hle
  · have hmin : min (20 / (w : ℚ)) (20 / (h : ℚ)) = 20 / (h : ℚ) :=
      min_eq_right (div_le_div_of_nonneg_left (by norm_num) hw0 hle)
    rw [hmin]
    have e1 : (h : ℚ) * (20 / (h : ℚ)) = 20 := by field_simp
    have e2 : (w : ℚ) * (20 / (h : ℚ)) ≤ 20 := by
      rw [← mul_div_assoc, div_le_iff₀ hh0]
      nlinarith
    refine ⟨?_, e2, le_of_eq e1, ?_⟩
    · field_simp
      ring
    · rw [e1]
      exact max_eq_right e2
  · have hmin : min (20 / (w : ℚ)) (20 / (h : ℚ)) = 20 / (w : ℚ) :=
      min_eq_left (div_le_div_of_nonneg_left (by norm_num) hh0 hle)
    rw [hmin]
    have e1 : (w : ℚ) * (20 / (w : ℚ)) = 20 := by field_simp
    have e2 : (h : ℚ) * (20 / (w : ℚ)) ≤ 20 := by
      rw [← mul_div_assoc, div_le_iff₀ hw0]
      nlinarith
    refine ⟨?_, le_of_eq e1, e2, ?_⟩
    · field_simp
      ring
    · rw [e1]
      exact max_eq_left e2

/-- C5 on a crop of 10 by 10 pixels, the black square of the test buffer: both scaled
dimensions are 20. -/
theorem scaled_dimensions_square :
    ((1 : Int) ≤ 10) ∧ ((1 : Int) ≤ 10) ∧
    (scaledWidth 10 10 / scaledHeight 10 10 = ((10 : Int) : ℚ) / ((10 : Int) : ℚ) ∧
      scaledWidth 10 10 ≤ 20 ∧ scaledHeight 10 10 ≤ 20 ∧
      max (scaledWidth 10 10) (scaledHeight 10 10) = 20) :=
  ⟨by decide, by decide, scaled_dimensions 10 10 (by decide) (by decide)⟩


theorem forRange_empty (lo hi : Int) (h : hi < lo) : forRange lo hi = [] := by
  unfold forRange
  have : (hi + 1 - lo).toNat = 0 := by omega
  rw [this]
  rfl

theorem blankSurface_length (w h : Nat) : (blankSurface w h).length = 4 * w * h := by
  simp [blankSurface]

theorem blankSurface_mean (w h x y : Nat) (hx : x < w) (hy : y < h) :
    pixelMean (blankSurface w h) w x y = some 255 := by
  have hp := pixel_lt hx hy
  have hl : (y * w + x) * 4 + 2 < (blankSurface w h).length := by
    rw [blankSurface_length, Nat.mul_assoc]
    omega
  obtain ⟨r, g, b, hr, hg, hb, hav⟩ := avgAt_some (blankSurface w h) ((y * w + x) * 4) hl
  have e1 := List.getElem?_mem hr
  have e2 := List.getElem?_mem hg
  have e3 := List.getElem?_mem hb
  simp only [blankSurface, List.mem_replicate] at e1 e2 e3
  rw [pixelMean, pixelIndex_natCast, hav, e1.2, e2.2, e3.2]
  norm_num

theorem blankSurface_no_ink (w h x y : Nat) (hx : x < w) (hy : y < h) :
    isInk (blankSurface w h) w x y = false := by
  rw [isInk_of_mean _ _ _ _ _ (blankSurface_mean w h x y hx hy)]
  exact decide_eq_false (by norm_num)

/-- On a drawing surface without ink `getImageData` goes on with the degenerate box: the
crop is requested at `(w, h)` with the negative size `1 - w` by `1 - h`, the centre of mass
is the fallback, and a feature vector is returned unless a canvas operation throws. -/
theorem getImageData_no_ink (canvas : Canvas) (drawingData : List Nat) (w h : Nat)
    (hh : 1 ≤ h)
    (hno : ∀ x y, x < w → y < h → isInk drawingData w x y = false) :
    getImageData canvas drawingData w h =
      (match canvas.crop drawingData w h w h (0 - (w : Int) + 1) (0 - (h : Int) + 1) with
      | .error e => .error e
      | .ok croppedData =>
        match canvas.render croppedData (0 - (w : Int) + 1) (0 - (h : Int) + 1)
            (scaledWidth (0 - (w : Int) + 1) (0 - (h : Int) + 1))
            (scaledHeight (0 - (w : Int) + 1) (0 - (h : Int) + 1))
            (some (14 - ((0 - (w : Int) + 1 : Int) : ℚ) / 2 *
              scale (0 - (w : Int) + 1) (0 - (h : Int) + 1)))
            (some (14 - ((0 - (h : Int) + 1 : Int) : ℚ) / 2 *
              scale (0 - (w : Int) + 1) (0 - (h : Int) + 1))) with
        | .error e => .error e
        | .ok imageData =>
          .ok (normalize (applyGaussianBlur (applyGaussianBlur imageData 28 28) 28 28))) := by
  have hcom : ∀ croppedData : List Nat,
      getCenterOfMass croppedData (0 - (w : Int) + 1) (0 - (h : Int) + 1)
        { minX := 0, minY := 0, maxX := 0 - (w : Int) + 1 - 1, maxY := 0 - (h : Int) + 1 - 1 } =
        some { x := ((0 - (w : Int) + 1 : Int) : ℚ) / 2,
               y := ((0 - (h : Int) + 1 : Int) : ℚ) / 2 } := by
    intro croppedData
    unfold getCenterOfMass centerOfMassSums
    rw [forRange_empty 0 (0 - (h : Int) + 1 - 1) (by omega)]
    simp
  unfold getImageData
  rw [getBoundingBox_no_ink drawingData w h hno]
  simp only [drawnWidth, drawnHeight, hcom, Option.map_some']

/-- C2 fails on the code. On the blank 380 by 380 drawing surface `getBoundingBox` returns
the empty box `minX = 380, minY = 380, maxX = 0, maxY = 0`, and `getImageData` does not branch
on it: it derives the crop dimensions -379 by -379 and the scale -20/379, asks the canvas for
that region, and returns a feature vector unless a canvas operation throws. `sendToServer`
then sends that vector; the only error states it can end in carry the message of a thrown
exception. -/
theorem getImageData_blank_proceeds (canvas : Canvas) (s : UIState)
    (fetch : List (Option ℚ) → Except String Response) :
    (∀ x y : Nat, x < 380 → y < 380 → isInk (blankSurface 380 380) 380 x y = false) ∧
    getBoundingBox (blankSurface 380 380) 380 380 =
      { minX := 380, minY := 380, maxX := 0, maxY := 0 } ∧
    drawnWidth (getBoundingBox (blankSurface 380 380) 380 380) = -379 ∧
    drawnHeight (getBoundingBox (blankSurface 380 380) 380 380) = -379 ∧
    scale (-379) (-379) = -20 / 379 ∧
    scaledWidth (-379) (-379) = 20 ∧ scaledHeight (-379) (-379) = 20 ∧
    getImageData canvas (blankSurface 380 380) 380 380 =
      (match canvas.crop (blankSurface 380 380) 380 380 380 380 (-379) (-379) with
      | .error e => .error e
      | .ok croppedData =>
        match canvas.render croppedData (-379) (-379) 20 20 (some 4) (some 4) with
        | .error e => .error e
        | .ok imageData =>
          .ok (normalize (applyGaussianBlur (applyGaussianBlur imageData 28 28) 28 28))) ∧
    sendToServer s (getImageData canvas (blankSurface 380 380) 380 380) fetch =
      (match canvas.crop (blankSurface 380 380) 380 380 380 380 (-379) (-379) with
      | .error e => { isLoading := false, error := some e, predictedDigit := none }
      | .ok croppedData =>
        match canvas.render croppedData (-379) (-379) 20 20 (some 4) (some 4) with
        | .error e => { isLoading := false, error := some e, predictedDigit := none }
        | .ok imageData =>
          sendToServer s
            (.ok (normalize (applyGaussianBlur (applyGaussianBlur imageData 28 28) 28 28)))
            fetch) := by
  have hno : ∀ x y : Nat, x < 380 → y < 380 → isInk (blankSurface 380 380) 380 x y = false :=
    fun x y hx hy => blankSurface_no_ink 380 380 x y hx hy
  have hbox : getBoundingBox (blankSurface 380 380) 380 380 =
      { minX := 380, minY := 380, maxX := 0, maxY := 0 } := by
    have := getBoundingBox_no_ink (blankSurface 380 380) 380 380 hno
    simpa using this
  have hs : scale (-379) (-379) = -20 / 379 := by
    unfold scale
    norm_num
  have hsw : scaledWidth (-379) (-379) = 20 := by
    unfold scaledWidth
    rw [hs]
    norm_num
  have hsh : scaledHeight (-379) (-379) = 20 := by
    unfold scaledHeight
    rw [hs]
    norm_num
  have e379 : (0 : Int) - 380 + 1 = -379 := by decide
  have hgid : getImageData canvas (blankSurface 380 380) 380 380 =
      (match canvas.crop (blankSurface 380 380) 380 380 380 380 (-379) (-379) with
      | .error e => .error e
      | .ok croppedData =>
        match canvas.render croppedData (-379) (-379) 20 20 (some 4) (some 4) with
        | .error e => .error e
        | .ok imageData =>
          .ok (normalize (applyGaussianBlur (applyGaussianBlur imageData 28 28) 28 28))) := by
    rw [getImageData_no_ink canvas (blankSurface 380 380) 380 380 (by omega) hno]
    have o4 : (14 : ℚ) - (((-379 : Int) : ℚ)) / 2 * (-20 / 379) = 4 := by norm_num
    simp only [Nat.cast_ofNat, e379, hs, hsw, hsh, o4]
  refine ⟨hno, hbox, ?_, ?_, hs, hsw, hsh, hgid, ?_⟩
  · rw [hbox]
    decide
  · rw [hbox]
    decide
  rw [hgid]
  cases canvas.crop (blankSurface 380 380) 380 380 380 380 (-379) (-379) with
  | error e => rfl
  | ok croppedData =>
    dsimp only
    cases canvas.render croppedData (-379) (-379) 20 20 (some 4) (some 4) with
    | error e => rfl
    | ok imageData => rfl

/-! ## Claims about sendToServer -/

/-- C10. Whatever the prior state, when the request resolves to a response whose `ok` is
false, whatever its body, `sendToServer` ends with `predictedDigit` null, `error` set to the
message `Server responded with <status>` and `isLoading` false. -/
theorem sendToServer_not_ok (s : UIState) (image : List (Option ℚ))
    (fetch : List (Option ℚ) → Except String Response) (response : Response)
    (hfetch : fetch image = .ok response) (hok : response.ok = false) :
    sendToServer s (.ok image) fetch =
      { isLoading := false,
        error := some ("Server responded with " ++ toString response.status),
        predictedDigit := none } ∧
    (sendToServer s (.ok image) fetch).predictedDigit = none ∧
    (sendToServer s (.ok image) fetch).error ≠ none ∧
    (sendToServer s (.ok image) fetch).isLoading = false := by
  have key : sendToServer s (.ok image) fetch =
      { isLoading := false,
        error := some ("Server responded with " ++ toString response.status),
        predictedDigit := none } := by
    unfold sendToServer tryPredict
    simp only [hfetch, hok]
    rfl
  rw [key]
  exact ⟨rfl, rfl, by simp, rfl⟩

/-- C10 on a 500 response whose body carries a prediction, from a state that shows an
earlier prediction: no digit is shown and the error is set. -/
theorem sendToServer_not_ok_500 :
    (fun _ => Except.ok failedResponse : List (Option ℚ) → Except String Response) [] =
      .ok failedResponse ∧
    failedResponse.ok = false ∧
    (sendToServer shownState (.ok []) (fun _ => .ok failedResponse) =
      { isLoading := false,
        error := some ("Server responded with " ++ toString failedResponse.status),
        predictedDigit := none } ∧
    (sendToServer shownState (.ok []) (fun _ => .ok failedResponse)).predictedDigit = none ∧
    (sendToServer shownState (.ok []) (fun _ => .ok failedResponse)).error ≠ none ∧
    (sendToServer shownState (.ok []) (fun _ => .ok failedResponse)).isLoading = false) :=
  ⟨rfl, rfl,
    sendToServer_not_ok shownState [] (fun _ => .ok failedResponse) failedResponse rfl rfl⟩

end DigitImagePredictor
